import Mathlib

/-!
Verification development for the claude-convo-md-dump repository.

The Python sources are shallowly embedded: JSON-like dynamic values become the
inductive `JSON`; Python code that can raise (attribute errors on non-dict
values, iteration over non-iterables, string indexing of containers) is
embedded in `Except String`; pure code becomes pure Lean functions.  Machine
details that no claim depends on (float numbers, unicode case folding beyond
ASCII) are noted at the definition they affect.
-/

set_option maxRecDepth 4000

/-- A parsed JSON value as produced by Python json.loads.  Numbers are
modelled as integers: no claim depends on fractional values, and the parser
below falls back to the raw string for non-integer numerals. -/
inductive JSON where
  | null
  | bool (b : Bool)
  | num (n : Int)
  | str (s : String)
  | arr (xs : List JSON)
  | obj (kvs : List (String × JSON))

/-- Python truthiness of a JSON-like value. -/
def truthy : JSON → Bool
  | .null => false
  | .bool b => b
  | .num n => decide (n ≠ 0)
  | .str s => !(s == "")
  | .arr xs => !xs.isEmpty
  | .obj kvs => !kvs.isEmpty

/-- Lookup in a Python dict (modelled as an association list with unique
keys): dict.get(k, d). -/
def dictGet (kvs : List (String × JSON)) (k : String) (d : JSON) : JSON :=
  match kvs.lookup k with
  | some v => v
  | none => d

/-- Python value.get(k, d): attribute error when the receiver is not a dict. -/
def pyGet (v : JSON) (k : String) (d : JSON) : Except String JSON :=
  match v with
  | .obj kvs => .ok (dictGet kvs k d)
  | _ => .error "AttributeError: get on non-dict"

/-- Whether a JSON value equals a given Python string (value == "s"). -/
def isStr (v : JSON) (s : String) : Bool :=
  match v with
  | .str t => t == s
  | _ => false

/-- Python a or b for JSON-like values. -/
def pyOr (a b : JSON) : JSON := if truthy a then a else b

/-- Python iteration over a JSON-like value: lists yield elements, strings
yield one-character strings, dicts yield their keys, scalars raise. -/
def pyIter : JSON → Except String (List JSON)
  | .arr xs => .ok xs
  | .str s => .ok (s.data.map (fun c => JSON.str (String.mk [c])))
  | .obj kvs => .ok (kvs.map (fun kv => JSON.str kv.1))
  | _ => .error "TypeError: not iterable"

/-- Requires a JSON value to be a dict, as when Python calls a dict method on
it unconditionally. -/
def toObj : JSON → Except String (List (String × JSON))
  | .obj kvs => .ok kvs
  | _ => .error "AttributeError: not a dict"

mutual

/-- Python repr of a parsed-JSON value (ASCII strings assumed; used only via
str() on nested containers, whose exact text no claim inspects). -/
def pyRepr : JSON → String
  | .null => "None"
  | .bool true => "True"
  | .bool false => "False"
  | .num n => toString n
  | .str s => "'" ++ s ++ "'"
  | .arr xs => "[" ++ pyReprList xs ++ "]"
  | .obj kvs => "\x7b" ++ pyReprObj kvs ++ "\x7d"

/-- Comma-joined repr of list elements. -/
def pyReprList : List JSON → String
  | [] => ""
  | [x] => pyRepr x
  | x :: xs => pyRepr x ++ ", " ++ pyReprList xs

/-- Comma-joined repr of dict entries. -/
def pyReprObj : List (String × JSON) → String
  | [] => ""
  | [kv] => "'" ++ kv.1 ++ "': " ++ pyRepr kv.2
  | kv :: kvs => "'" ++ kv.1 ++ "': " ++ pyRepr kv.2 ++ ", " ++ pyReprObj kvs

end

/-- Python str() of a parsed-JSON value. -/
def pyStr : JSON → String
  | .str s => s
  | v => pyRepr v

/-- A canonical event as built by the normalizers: Python leaves role,
timestamp and blocks as the raw values the record supplied, so all three are
JSON-typed here; blocks are the block dicts verbatim. -/
structure Event where
  role : JSON
  timestamp : JSON
  blocks : List JSON

/-- Builds a text block dict. -/
def textBlock (t : JSON) : JSON := .obj [("type", .str "text"), ("text", t)]

/-- Builds a thinking block dict. -/
def thinkingBlock (t : JSON) : JSON :=
  .obj [("type", .str "thinking"), ("thinking", t)]

/-- Builds a meta block dict. -/
def metaBlock (label : String) (content : JSON) : JSON :=
  .obj [("type", .str "meta"), ("label", .str label), ("content", content)]

/-- Builds an unknown block dict. -/
def unknownBlock (src : String) (raw : JSON) : JSON :=
  .obj [("type", .str "unknown"), ("source", .str src), ("raw", raw)]

/-- Embeds backends.normalize_claude_event.  The raw record is typed
Dict[str, Any] in the source, hence an association list here. -/
def normalize_claude_event (raw : List (String × JSON)) :
    Except String (List Event) :=
  let row_type := dictGet raw "type" .null
  if isStr row_type "user" || isStr row_type "assistant" then
    match dictGet raw "message" (.obj []) with
    | .obj mkvs =>
      let role := pyOr (dictGet mkvs "role" .null) row_type
      let content := dictGet mkvs "content" .null
      let blocks : List JSON :=
        match content with
        | .str s => [textBlock (.str s)]
        | .arr items =>
            items.filter (fun b => match b with | .obj _ => true | _ => false)
        | _ => []
      if blocks.isEmpty then .ok []
      else .ok [⟨role, dictGet raw "timestamp" (.str ""), blocks⟩]
    | _ => .error "AttributeError: get on non-dict"
  else
    .ok []

/-- Python whitespace characters stripped by str.strip (ASCII subset). -/
def isPyWs (c : Char) : Bool :=
  c == ' ' || c == '\t' || c == '\n' || c == '\r' || c == '\x0b' || c == '\x0c'

/-- Python str.strip(). -/
def pyStrip (s : String) : String :=
  String.mk (((s.data.dropWhile isPyWs).reverse.dropWhile isPyWs).reverse)

/-- Python sep.join(parts): a TypeError when any part is not a string. -/
def pyJoinVals (sep : String) (parts : List JSON) : Except String String :=
  if parts.all (fun p => match p with | .str _ => true | _ => false) then
    .ok (String.intercalate sep (parts.map pyStr))
  else
    .error "TypeError: join on non-str"

/-- Python substring containment (needle in hay). -/
def containsSub (needle : List Char) : List Char → Bool
  | [] => needle.isEmpty
  | c :: rest => needle.isPrefixOf (c :: rest) || containsSub needle rest

/-- Python needle in value for JSON-like values: dict keys, list elements,
substring of a string; a TypeError on scalars. -/
def pyIn (needle : String) (v : JSON) : Except String Bool :=
  match v with
  | .obj kvs => .ok (kvs.any (fun kv => kv.1 == needle))
  | .arr xs => .ok (xs.any (fun x => isStr x needle))
  | .str s => .ok (containsSub needle.data s.data)
  | _ => .error "TypeError: argument not a container"

/-- Python value[k] indexing for a string key. -/
def pyIndex (v : JSON) (k : String) : Except String JSON :=
  match v with
  | .obj kvs =>
    match kvs.lookup k with
    | some x => .ok x
    | none => .error "KeyError"
  | _ => .error "TypeError: not subscriptable"

/-- Python str.title() over ASCII text. -/
def pyTitle (s : String) : String :=
  let f := fun (acc : List Char × Bool) c =>
    let c2 := if c.isAlpha then (if acc.2 then c.toUpper else c.toLower) else c
    (acc.1 ++ [c2], !c.isAlpha)
  String.mk ((s.data.foldl f ([], true)).1)

/-- JSON structural whitespace accepted by the Python json parser. -/
def isJsonWs (c : Char) : Bool :=
  c == ' ' || c == '\t' || c == '\n' || c == '\r'

/-- Parses an unsigned decimal integer literal. -/
def parseDigits (cs : List Char) : Option (Nat × List Char) :=
  let ds := cs.takeWhile Char.isDigit
  if ds.isEmpty then none
  else some (ds.foldl (fun n c => n * 10 + (c.toNat - '0'.toNat)) 0,
             cs.drop ds.length)

mutual

/-- Fuel-bounded recursive-descent parser for the JSON fragment that
json.loads accepts, restricted to integer numerals: fractional or exponent
numerals fail to parse, making the caller fall back to the raw string (a
documented simplification; no claim depends on parsed numeric values). -/
def parseVal (fuel : Nat) (cs : List Char) : Option (JSON × List Char) :=
  match fuel with
  | 0 => none
  | fuel + 1 =>
    match cs.dropWhile isJsonWs with
    | 'n' :: 'u' :: 'l' :: 'l' :: rest => some (.null, rest)
    | 't' :: 'r' :: 'u' :: 'e' :: rest => some (.bool true, rest)
    | 'f' :: 'a' :: 'l' :: 's' :: 'e' :: rest => some (.bool false, rest)
    | '"' :: rest =>
      match parseStrBody fuel rest [] with
      | some (s, rest2) => some (.str s, rest2)
      | none => none
    | '[' :: rest =>
      (match (rest.dropWhile isJsonWs) with
       | ']' :: rest2 => some (.arr [], rest2)
       | _ =>
         match parseArrItems fuel rest [] with
         | some (xs, rest2) => some (.arr xs, rest2)
         | none => none)
    | '\x7b' :: rest =>
      (match (rest.dropWhile isJsonWs) with
       | '\x7d' :: rest2 => some (.obj [], rest2)
       | _ =>
         match parseObjItems fuel rest [] with
         | some (kvs, rest2) => some (.obj kvs, rest2)
         | none => none)
    | '-' :: rest =>
      (match parseDigits rest with
       | some (n, rest2) =>
         (match rest2 with
          | '.' :: _ => none
          | 'e' :: _ => none
          | 'E' :: _ => none
          | _ => some (.num (-(n : Int)), rest2))
       | none => none)
    | c :: rest =>
      if c.isDigit then
        (match parseDigits (c :: rest) with
         | some (n, rest2) =>
           (match rest2 with
            | '.' :: _ => none
            | 'e' :: _ => none
            | 'E' :: _ => none
            | _ => some (.num (n : Int), rest2))
         | none => none)
      else none
    | [] => none

/-- Parses the body of a JSON string literal after the opening quote. -/
def parseStrBody (fuel : Nat) (cs : List Char) (acc : List Char) :
    Option (String × List Char) :=
  match fuel with
  | 0 => none
  | fuel + 1 =>
    match cs with
    | [] => none
    | '"' :: rest => some (String.mk acc.reverse, rest)
    | '\\' :: e :: rest =>
      (match e with
       | '"' => parseStrBody fuel rest ('"' :: acc)
       | '\\' => parseStrBody fuel rest ('\\' :: acc)
       | '/' => parseStrBody fuel rest ('/' :: acc)
       | 'n' => parseStrBody fuel rest ('\n' :: acc)
       | 't' => parseStrBody fuel rest ('\t' :: acc)
       | 'r' => parseStrBody fuel rest ('\r' :: acc)
       | 'b' => parseStrBody fuel rest ('\x08' :: acc)
       | 'f' => parseStrBody fuel rest ('\x0c' :: acc)
       | 'u' =>
         (match rest with
          | h1 :: h2 :: h3 :: h4 :: rest2 =>
            let isHex := fun (c : Char) =>
              c.isDigit || ('a' ≤ c && c ≤ 'f') || ('A' ≤ c && c ≤ 'F')
            if isHex h1 && isHex h2 && isHex h3 && isHex h4 then
              let hv := fun (c : Char) =>
                if c.isDigit then c.toNat - '0'.toNat
                else if 'a' ≤ c && c ≤ 'f' then c.toNat - 'a'.toNat + 10
                else c.toNat - 'A'.toNat + 10
              let n := ((hv h1 * 16 + hv h2) * 16 + hv h3) * 16 + hv h4
              parseStrBody fuel rest2 (Char.ofNat n :: acc)
            else none
          | _ => none)
       | _ => none)
    | c :: rest => parseStrBody fuel rest (c :: acc)

/-- Parses the items of a non-empty JSON array after the opening bracket. -/
def parseArrItems (fuel : Nat) (cs : List Char) (acc : List JSON) :
    Option (List JSON × List Char) :=
  match fuel with
  | 0 => none
  | fuel + 1 =>
    match parseVal fuel cs with
    | none => none
    | some (v, rest) =>
      match rest.dropWhile isJsonWs with
      | ',' :: rest2 => parseArrItems fuel rest2 (acc ++ [v])
      | ']' :: rest2 => some (acc ++ [v], rest2)
      | _ => none

/-- Parses the entries of a non-empty JSON object after the opening brace. -/
def parseObjItems (fuel : Nat) (cs : List Char) (acc : List (String × JSON)) :
    Option (List (String × JSON) × List Char) :=
  match fuel with
  | 0 => none
  | fuel + 1 =>
    match cs.dropWhile isJsonWs with
    | '"' :: rest =>
      (match parseStrBody fuel rest [] with
       | none => none
       | some (k, rest2) =>
         match rest2.dropWhile isJsonWs with
         | ':' :: rest3 =>
           (match parseVal fuel rest3 with
            | none => none
            | some (v, rest4) =>
              match rest4.dropWhile isJsonWs with
              | ',' :: rest5 => parseObjItems fuel rest5 (acc ++ [(k, v)])
              | '\x7d' :: rest5 => some (acc ++ [(k, v)], rest5)
              | _ => none)
         | _ => none)
    | _ => none

end

/-- Embeds backends._parse_json_maybe: strips a string and opportunistically
parses it as JSON, falling back to the stripped string; non-strings pass
through untouched. -/
def parse_json_maybe (v : JSON) : JSON :=
  match v with
  | .str s =>
    let t := pyStrip s
    if t == "" then .str t
    else
      match parseVal (t.length + 1) t.data with
      | some (j, rest) => if (rest.dropWhile isJsonWs).isEmpty then j else .str t
      | none => .str t
  | other => other

/-- Builds a tool_use block dict. -/
def toolUseBlock (name input : JSON) : JSON :=
  .obj [("type", .str "tool_use"), ("name", name), ("input", input)]

/-- Builds a codex tool_result block dict (no is_error field). -/
def toolResultBlock (content : JSON) : JSON :=
  .obj [("type", .str "tool_result"), ("content", content)]

/-- Builds a gemini tool_result block dict with its is_error flag. -/
def toolResultErrBlock (content : JSON) (isError : Bool) : JSON :=
  .obj [("type", .str "tool_result"), ("content", content),
        ("is_error", .bool isError)]

/-- Embeds backends._codex_text_from_items: joins truthy text fields of dict
items; joining raises when a truthy text value is not a string. -/
def codex_text_from_items (items : List JSON) : Except String String := do
  let parts := items.foldl (fun acc item =>
    match item with
    | .obj kvs =>
      let t := dictGet kvs "text" .null
      if truthy t then acc ++ [t] else acc
    | _ => acc) []
  let s ← pyJoinVals "\n" parts
  .ok (pyStrip s)

/-- Embeds backends._codex_summary_text. -/
def codex_summary_text (summary : JSON) : Except String String :=
  match summary with
  | .arr items => do
    let parts := items.map (fun item =>
      match item with
      | .obj kvs =>
        let t := dictGet kvs "text" .null
        if truthy t then t else .str (pyStr item)
      | _ => .str (pyStr item))
    let s ← pyJoinVals "\n" parts
    .ok (pyStrip s)
  | .str s => .ok s
  | _ => .ok ""

/-- The per-item step of the role-less response_item message split in
normalize_codex_event: one user or assistant text event per truthy item. -/
def codexSplitStep (timestamp : JSON) (evs : List Event) (item : JSON) :
    List Event :=
  match item with
  | .obj ikvs =>
    let text := dictGet ikvs "text" (.str "")
    if !(truthy text) then evs
    else
      let item_role :=
        if isStr (dictGet ikvs "type" .null) "input_text" then "user"
        else "assistant"
      evs ++ [⟨.str item_role, timestamp, [textBlock text]⟩]
  | _ => evs

/-- Embeds backends.normalize_codex_event.  Attribute errors arise exactly
where the source calls .get on a payload that need not be a dict. -/
def normalize_codex_event (raw : List (String × JSON)) :
    Except String (List Event) :=
  let row_type := dictGet raw "type" .null
  let payload := dictGet raw "payload" (.obj [])
  let timestamp := dictGet raw "timestamp" (.str "")
  if isStr row_type "session_meta" then
    if truthy timestamp then
      .ok [⟨.str "meta", timestamp, [metaBlock "Session Meta" payload]⟩]
    else do
      let pts ← pyGet payload "timestamp" (.str "")
      .ok [⟨.str "meta", pts, [metaBlock "Session Meta" payload]⟩]
  else if isStr row_type "turn_context" then
    .ok [⟨.str "meta", timestamp, [metaBlock "Turn Context" payload]⟩]
  else if isStr row_type "event_msg" then do
    let pkvs ← toObj payload
    let msg_type := dictGet pkvs "type" .null
    let text := pyOr (dictGet pkvs "text" .null)
      (pyOr (dictGet pkvs "message" .null) (.str ""))
    if isStr msg_type "user_message" then
      .ok [⟨.str "user", timestamp, [textBlock text]⟩]
    else if isStr msg_type "agent_message" then
      .ok [⟨.str "assistant", timestamp, [textBlock text]⟩]
    else if isStr msg_type "agent_reasoning" then
      .ok [⟨.str "assistant", timestamp, [thinkingBlock text]⟩]
    else if isStr msg_type "token_count" then
      .ok [⟨.str "meta", timestamp, [metaBlock "Token Count" payload]⟩]
    else
      .ok [⟨.str "meta", timestamp, [unknownBlock "event_msg" payload]⟩]
  else if !(isStr row_type "response_item") then
    .ok []
  else do
    let pkvs ← toObj payload
    let item_type := dictGet pkvs "type" .null
    if isStr item_type "message" then
      let content := dictGet pkvs "content" .null
      let role := dictGet pkvs "role" .null
      match content with
      | .arr items =>
        if truthy role then do
          let text ← codex_text_from_items items
          if text == "" then .ok []
          else .ok [⟨role, timestamp, [textBlock (.str text)]⟩]
        else
          .ok (items.foldl (codexSplitStep timestamp) [])
      | _ => .ok []
    else if isStr item_type "function_call" then
      let role := pyOr (dictGet pkvs "role" .null) (.str "assistant")
      let input_data := parse_json_maybe (dictGet pkvs "arguments" (.str ""))
      .ok [⟨role, timestamp,
            [toolUseBlock (dictGet pkvs "name" .null) input_data]⟩]
    else if isStr item_type "function_call_output" then
      .ok [⟨.str "assistant", timestamp,
            [toolResultBlock (dictGet pkvs "output" (.str ""))]⟩]
    else if isStr item_type "reasoning" then do
      let thinking ← codex_summary_text (dictGet pkvs "summary" .null)
      let thinking :=
        if thinking == "" then "[Reasoning summary unavailable]" else thinking
      .ok [⟨.str "assistant", timestamp, [thinkingBlock (.str thinking)]⟩]
    else
      .ok [⟨.str "meta", timestamp,
            [unknownBlock ("response_item:" ++ pyStr item_type) payload]⟩]

/-- Inspects one gemini tool-call result item, yielding (output, is_error)
as the source does from the first element of a truthy result list. -/
def geminiResultItem (res_item : JSON) : Except String (JSON × Bool) := do
  let hasFr ← pyIn "functionResponse" res_item
  if hasFr then do
    let fr ← pyIndex res_item "functionResponse"
    let resp_body ← pyGet fr "response" (.obj [])
    match resp_body with
    | .obj bkvs =>
      if bkvs.any (fun kv => kv.1 == "output") then
        .ok (dictGet bkvs "output" .null, false)
      else
        .ok (.str (pyStr resp_body), false)
    | _ => .ok (.str (pyStr resp_body), false)
  else do
    let hasErr ← pyIn "error" res_item
    if hasErr then do
      let e ← pyGet res_item "error" (.str "Unknown error")
      .ok (e, true)
    else
      .ok (.str (pyStr res_item), false)

/-- Embeds the per-tool-call body of backends.normalize_gemini_event. -/
def geminiCallBlocks (call : JSON) : Except String (List JSON) := do
  let name ← pyGet call "name" .null
  let args ← pyGet call "args" .null
  let results ← pyGet call "result" (.arr [])
  let outErr ←
    match results with
    | .arr (r0 :: _) => geminiResultItem r0
    | _ => .ok (JSON.str "", false)
  .ok [toolUseBlock name args, toolResultErrBlock outErr.1 outErr.2]

/-- Embeds backends.normalize_gemini_event. -/
def normalize_gemini_event (raw : List (String × JSON)) :
    Except String (List Event) :=
  let msg_type := dictGet raw "type" .null
  let timestamp := dictGet raw "timestamp" (.str "")
  let content := dictGet raw "content" (.str "")
  if isStr msg_type "user" then
    .ok [⟨.str "user", timestamp, [textBlock content]⟩]
  else if isStr msg_type "gemini" then do
    let thoughts := dictGet raw "thoughts" (.arr [])
    let tblocks : List JSON :=
      match thoughts with
      | .arr ts => ts.foldl (fun acc t =>
          match t with
          | .obj tk =>
            let subject := dictGet tk "subject" (.str "")
            let desc := dictGet tk "description" (.str "")
            if truthy desc then
              let text := if truthy subject
                then JSON.str ("**" ++ pyStr subject ++ "**\n" ++ pyStr desc)
                else desc
              acc ++ [thinkingBlock text]
            else acc
          | _ => acc) []
      | _ => []
    let cblocks := if truthy content then [textBlock content] else []
    let calls ← pyIter (dictGet raw "toolCalls" (.arr []))
    let callBlocks ← calls.foldlM (fun acc call => do
        let bs ← geminiCallBlocks call
        pure (acc ++ bs)) ([] : List JSON)
    .ok [⟨.str "assistant", timestamp, tblocks ++ cblocks ++ callBlocks⟩]
  else
    match msg_type with
    | .str s =>
      if s == "error" || s == "info" then
        .ok [⟨.str "meta", timestamp, [metaBlock (pyTitle s) content]⟩]
      else .ok []
    | _ => .ok []

/-- Embeds backends.normalize_event: dispatch on the backend name, with
claude as the default. -/
def normalize_event (raw : List (String × JSON)) (backend : String) :
    Except String (List Event) :=
  if backend == "codex" then normalize_codex_event raw
  else if backend == "gemini" then normalize_gemini_event raw
  else normalize_claude_event raw

/-- Lifts normalize_event to an arbitrary JSON record: Python raises its
attribute error at raw.get when the record is not a dict. -/
def normalizeEventVal (v : JSON) (backend : String) :
    Except String (List Event) :=
  match v with
  | .obj kvs => normalize_event kvs backend
  | _ => .error "AttributeError: get on non-dict"

/-- Python s.startswith(pre), in a form the kernel evaluates. -/
def strStartsWith (s pre : String) : Bool := pre.data.isPrefixOf s.data

/-- Python s.endswith(suf), in a form the kernel evaluates. -/
def strEndsWith (s suf : String) : Bool := suf.data.isSuffixOf s.data

/-- Python s.split(sep) for a one-character separator. -/
def splitChar (sep : Char) : List Char → List (List Char)
  | [] => [[]]
  | c :: rest =>
    let r := splitChar sep rest
    if c == sep then [] :: r
    else
      match r with
      | h :: t => (c :: h) :: t
      | [] => [[c]]

/-- Python str.lower() over ASCII text. -/
def pyLower (s : String) : String := String.mk (s.data.map Char.toLower)

/-- Fuel-driven core of Python str.count: non-overlapping occurrences. -/
def countFrom (needle : List Char) : Nat → List Char → Nat
  | 0, _ => 0
  | _, [] => 0
  | fuel + 1, c :: rest =>
    if needle.isPrefixOf (c :: rest) then
      1 + countFrom needle fuel ((c :: rest).drop needle.length)
    else
      countFrom needle fuel rest

/-- Python hay.count(needle) for a non-empty needle (every caller guards the
empty needle away before counting). -/
def pyCount (hay needle : String) : Nat :=
  countFrom needle.data hay.data.length hay.data

/-- Python hay.find(needle): index of the first occurrence. -/
def pyFindPos (needle : List Char) : List Char → Nat → Option Nat
  | [], i => if needle.isEmpty then some i else none
  | c :: rest, i =>
    if needle.isPrefixOf (c :: rest) then some i
    else pyFindPos needle rest (i + 1)

/-- Embeds as_i_was_saying._truncate_snippet. -/
def truncate_snippet (text : String) (maxLen : Nat) : String :=
  let clean :=
    pyStrip (String.mk (text.data.map (fun c => if c == '\n' then ' ' else c)))
  if clean.length > maxLen then
    String.mk (clean.data.take (maxLen - 3)) ++ "..."
  else clean

/-- Embeds as_i_was_saying.extract_text_from_blocks. -/
def extract_text_from_blocks (blocks : List JSON) : Except String String := do
  let parts ← blocks.foldlM (fun (acc : List JSON) block => do
      let t ← pyGet block "type" .null
      if isStr t "text" then do
        let text ← pyGet block "text" (.str "")
        if truthy text then pure (acc ++ [text]) else pure acc
      else pure acc) ([] : List JSON)
  let s ← pyJoinVals " " parts
  .ok (pyStrip s)

/-- The on-disk shape of one session file, after the JSON layer: a single
document (gemini layout) or a stream of parsed JSONL records, where the
source has already skipped unparsable lines. -/
inductive FileData where
  | doc (j : JSON)
  | lines (recs : List JSON)

/-- The per-event step of the claude/codex loop of get_session_context:
user-role text that is non-empty and does not start with "<" updates the
(latest, earliest) state. -/
def ctxEventStepLines (st : Option String × Option String) (event : Event) :
    Except String (Option String × Option String) := do
  if !(isStr event.role "user") then pure st
  else do
    let text ← extract_text_from_blocks event.blocks
    if text != "" && !(strStartsWith text "<") then
      pure (some text, match st.2 with | none => some text | e => e)
    else pure st

/-- The per-record step of the claude/codex loop of get_session_context. -/
def ctxRecordStepLines (backend : String)
    (st : Option String × Option String) (data : JSON) :
    Except String (Option String × Option String) := do
  let events ← normalizeEventVal data backend
  events.foldlM ctxEventStepLines st

/-- The claude/codex loop of as_i_was_saying.get_session_context, before its
surrounding try/except; the state is (latest, earliest). -/
def sessionContextLinesE (backend : String) (records : List JSON) :
    Except String (Option String × Option String) :=
  records.foldlM (ctxRecordStepLines backend)
    ((none, none) : Option String × Option String)

/-- The gemini branch of as_i_was_saying.get_session_context, before its
surrounding try/except. -/
def sessionContextGeminiE (doc : JSON) :
    Except String (Option String × Option String) := do
  let dkvs ← toObj doc
  let msgs ← pyIter (dictGet dkvs "messages" (.arr []))
  msgs.foldlM (fun st msg => do
    let events ← normalizeEventVal msg "gemini"
    events.foldlM (fun (st : Option String × Option String) event => do
      if !(isStr event.role "user") then pure st
      else do
        let text ← extract_text_from_blocks event.blocks
        if text != "" then
          pure (some text, match st.2 with | none => some text | e => e)
        else pure st) st) ((none, none) : Option String × Option String)

/-- Embeds as_i_was_saying.get_session_context for a present file: any
exception in either branch is caught and yields (None, None).  A file whose
physical layout does not fit the backend is the parse-failure path of the
same try/except. -/
def get_session_context (backend : String) (fd : FileData) :
    Option String × Option String :=
  if backend == "gemini" then
    match fd with
    | .doc j =>
      (match sessionContextGeminiE j with
       | .ok st => st
       | .error _ => (none, none))
    | .lines _ => (none, none)
  else
    match fd with
    | .lines recs =>
      (match sessionContextLinesE backend recs with
       | .ok st => st
       | .error _ => (none, none))
    | .doc _ => (none, none)

/-- get_session_context including the missing-file case (FileNotFoundError
is caught by the same try/except and yields (None, None)). -/
def get_session_context_file (backend : String) (fd : Option FileData) :
    Option String × Option String :=
  match fd with
  | none => (none, none)
  | some f => get_session_context backend f

/-- Embeds as_i_was_saying.collect_events over the modelled file shape. -/
def collect_events (backend : String) (fd : FileData) :
    Except String (List Event) :=
  if backend == "gemini" then
    match fd with
    | .doc j => do
      let dkvs ← toObj j
      let msgs ← pyIter (dictGet dkvs "messages" (.arr []))
      msgs.foldlM (fun acc msg => do
        let evs ← normalizeEventVal msg backend
        pure (acc ++ evs)) ([] : List Event)
    | .lines _ => .error "modelled: single-document layout expected"
  else
    match fd with
    | .lines recs =>
      recs.foldlM (fun acc r => do
        let evs ← normalizeEventVal r backend
        pure (acc ++ evs)) ([] : List Event)
    | .doc _ => .error "modelled: line-delimited layout expected"

/-- The per-text-block accumulation step of as_i_was_saying.
analyze_session_query: running total and first-match context. -/
def analyzeBlocksStep (needle : String) (query : String)
    (st : Nat × String) (block : JSON) : Except String (Nat × String) := do
  let t ← pyGet block "type" .null
  if !(isStr t "text") then pure st
  else do
    let text ← pyGet block "text" (.str "")
    if !(truthy text) then pure st
    else
      match text with
      | .str s =>
        let lowered := pyLower s
        let total := st.1 + pyCount lowered needle
        if st.2 == "" then
          match pyFindPos needle.data lowered.data 0 with
          | some idx =>
            let start := idx - 25
            let stop := min s.length (idx + query.length + 25)
            let ctx := truncate_snippet
              (String.mk ((s.data.drop start).take (stop - start))) 60
            pure (total, ctx)
          | none => pure (total, st.2)
        else pure (total, st.2)
      | _ => .error "AttributeError: lower on non-str"

/-- Embeds as_i_was_saying.analyze_session_query: the try/except protects
only the collect_events call; the counting loop itself can raise (on a
truthy non-string text value), which this Except models. -/
def analyze_session_query (backend : String) (fd : Option FileData)
    (query : String) : Except String (Nat × String) := do
  let needle := pyStrip (pyLower query)
  if needle == "" then .ok (0, "")
  else
    match fd with
    | none => .ok (0, "")
    | some f =>
      match collect_events backend f with
      | .error _ => .ok (0, "")
      | .ok events =>
        events.foldlM (fun st event =>
          event.blocks.foldlM (analyzeBlocksStep needle query) st)
          ((0, "") : Nat × String)

/-- A session dict as built by the scanner and enriched by discovery.  The
optional fields model keys that are only present once a stage has set them.
File modification times are modelled as integers: no claim depends on
fractional seconds. -/
structure Session where
  path : String
  mtime : Int
  size : Int
  backend : Option String
  sessionId : Option String
  latestSummary : Option String
  earliestSummary : Option String
  matchCount : Option Nat
  matchContext : Option String

/-- Stable insertion: places the new element before the first element it may
precede, so earlier-input elements win ties exactly as Python's stable sort
does. -/
def insertLe (le : α → α → Bool) (a : α) : List α → List α
  | [] => [a]
  | b :: bs => if le a b then a :: b :: bs else b :: insertLe le a bs

/-- Stable sort; with a total preorder le this computes the same list as
Python's stable sorted, which is uniquely determined by key order plus
stability. -/
def pySorted (le : α → α → Bool) : List α → List α
  | [] => []
  | x :: xs => insertLe le x (pySorted le xs)

theorem insertLe_perm (le : α → α → Bool) (a : α) (l : List α) :
    (insertLe le a l).Perm (a :: l) := by
  induction l with
  | nil => simp [insertLe]
  | cons b bs ih =>
    simp only [insertLe]
    by_cases h : le a b
    · simp [h]
    · simp only [h, if_neg]
      exact (List.Perm.cons b ih).trans (List.Perm.swap a b bs)

theorem pySorted_perm (le : α → α → Bool) (l : List α) :
    (pySorted le l).Perm l := by
  induction l with
  | nil => simp [pySorted]
  | cons x xs ih =>
    exact (insertLe_perm le x (pySorted le xs)).trans (ih.cons x)

theorem pairwise_insertLe (le : α → α → Bool)
    (htrans : ∀ a b c, le a b = true → le b c = true → le a c = true)
    (htot : ∀ a b, le a b = true ∨ le b a = true) (a : α) (l : List α)
    (hl : l.Pairwise (fun x y => le x y = true)) :
    (insertLe le a l).Pairwise (fun x y => le x y = true) := by
  induction l with
  | nil => simp [insertLe]
  | cons b bs ih =>
    rcases hl with _ | ⟨hb, hbs⟩
    simp only [insertLe]
    by_cases h : le a b
    · simp only [h, if_pos]
      refine List.Pairwise.cons ?_ (List.Pairwise.cons hb hbs)
      intro z hz
      rcases List.mem_cons.mp hz with rfl | hz2
      · exact h
      · exact htrans a b z h (hb z hz2)
    · simp only [h, if_neg]
      refine List.Pairwise.cons ?_ (ih hbs)
      intro z hz
      have hmem := (insertLe_perm le a bs).mem_iff.mp hz
      rcases List.mem_cons.mp hmem with rfl | hmem2
      · rcases htot b z with h2 | h2
        · exact h2
        · exact absurd h2 h
      · exact hb z hmem2

theorem pairwise_pySorted (le : α → α → Bool)
    (htrans : ∀ a b c, le a b = true → le b c = true → le a c = true)
    (htot : ∀ a b, le a b = true ∨ le b a = true) (l : List α) :
    (pySorted le l).Pairwise (fun x y => le x y = true) := by
  induction l with
  | nil => simp [pySorted]
  | cons x xs ih => exact pairwise_insertLe le htrans htot x _ ih

/-- Code-point lexicographic string ≤, as Python compares str values. -/
def charsLE : List Char → List Char → Bool
  | [], _ => true
  | _ :: _, [] => false
  | a :: as, b :: bs =>
    decide (a.toNat < b.toNat) || (decide (a.toNat = b.toNat) && charsLE as bs)

/-- Python string ≤. -/
def strLE (a b : String) : Bool := charsLE a.data b.data

theorem charsLE_total : ∀ as bs, charsLE as bs = true ∨ charsLE bs as = true := by
  intro as
  induction as with
  | nil => intro bs; left; cases bs <;> simp [charsLE]
  | cons a as ih =>
    intro bs
    cases bs with
    | nil => right; simp [charsLE]
    | cons b bs =>
      simp only [charsLE, Bool.or_eq_true, Bool.and_eq_true, decide_eq_true_eq]
      rcases Nat.lt_trichotomy a.toNat b.toNat with h | h | h
      · left; left; exact h
      · rcases ih bs with h2 | h2
        · left; right; exact ⟨h, h2⟩
        · right; right; exact ⟨h.symm, h2⟩
      · right; left; exact h

theorem charsLE_trans :
    ∀ as bs cs, charsLE as bs = true → charsLE bs cs = true →
      charsLE as cs = true := by
  intro as
  induction as with
  | nil => intro bs cs _ _; cases cs <;> simp [charsLE]
  | cons a as ih =>
    intro bs cs h1 h2
    cases bs with
    | nil => simp [charsLE] at h1
    | cons b bs =>
      cases cs with
      | nil => simp [charsLE] at h2
      | cons c cs =>
        simp only [charsLE, Bool.or_eq_true, Bool.and_eq_true,
          decide_eq_true_eq] at h1 h2 ⊢
        rcases h1 with h1 | ⟨h1e, h1r⟩
        · rcases h2 with h2 | ⟨h2e, h2r⟩
          · left; omega
          · left; omega
        · rcases h2 with h2 | ⟨h2e, h2r⟩
          · left; omega
          · right; exact ⟨by omega, ih bs cs h1r h2r⟩

/-- The recency-mode sort predicate: a may precede b when the key
(mtime, path) of b is lexicographically ≤ that of a (descending order,
Python sorted with reverse=True). -/
def recencyLE (a b : Session) : Bool :=
  decide (b.mtime < a.mtime) ||
  (decide (b.mtime = a.mtime) && strLE b.path a.path)

/-- The query-mode sort predicate on the key (match_count, mtime, path),
descending. -/
def queryLE (a b : Session) : Bool :=
  decide (b.matchCount.getD 0 < a.matchCount.getD 0) ||
  (decide (b.matchCount.getD 0 = a.matchCount.getD 0) && recencyLE a b)

theorem recencyLE_total : ∀ a b, recencyLE a b = true ∨ recencyLE b a = true := by
  intro a b
  simp only [recencyLE, Bool.or_eq_true, Bool.and_eq_true, decide_eq_true_eq]
  rcases Int.lt_trichotomy b.mtime a.mtime with h | h | h
  · left; left; exact h
  · rcases charsLE_total b.path.data a.path.data with h2 | h2
    · left; right; exact ⟨h, h2⟩
    · right; right; exact ⟨h.symm, h2⟩
  · right; left; exact h

theorem recencyLE_trans :
    ∀ a b c, recencyLE a b = true → recencyLE b c = true →
      recencyLE a c = true := by
  intro a b c h1 h2
  simp only [recencyLE, Bool.or_eq_true, Bool.and_eq_true,
    decide_eq_true_eq] at h1 h2 ⊢
  rcases h1 with h1 | ⟨h1e, h1s⟩ <;> rcases h2 with h2 | ⟨h2e, h2s⟩
  · left; omega
  · left; omega
  · left; omega
  · right; exact ⟨by omega, charsLE_trans _ _ _ h2s h1s⟩

theorem queryLE_total : ∀ a b, queryLE a b = true ∨ queryLE b a = true := by
  intro a b
  simp only [queryLE, Bool.or_eq_true, Bool.and_eq_true, decide_eq_true_eq]
  rcases Nat.lt_trichotomy (b.matchCount.getD 0) (a.matchCount.getD 0)
    with h | h | h
  · left; left; exact h
  · rcases recencyLE_total a b with h2 | h2
    · left; right; exact ⟨h, h2⟩
    · right; right; exact ⟨h.symm, h2⟩
  · right; left; exact h

theorem queryLE_trans :
    ∀ a b c, queryLE a b = true → queryLE b c = true → queryLE a c = true := by
  intro a b c h1 h2
  simp only [queryLE, Bool.or_eq_true, Bool.and_eq_true,
    decide_eq_true_eq] at h1 h2 ⊢
  rcases h1 with h1 | ⟨h1e, h1r⟩ <;> rcases h2 with h2 | ⟨h2e, h2r⟩
  · left; omega
  · left; omega
  · left; omega
  · right; exact ⟨by omega, recencyLE_trans a b c h1r h2r⟩

/-- Looks up a path in the modelled filesystem. -/
def lookupFd (fs : List (String × FileData)) (p : String) : Option FileData :=
  fs.lookup p

/-- Attaches query-match fields to a session copy, as the query arm of
rank_sessions does. -/
def withMatch (s : Session) (mc : Nat) (ctx : String) : Session :=
  ⟨s.path, s.mtime, s.size, s.backend, s.sessionId, s.latestSummary,
   s.earliestSummary, some mc,
   some (if ctx != "" then ctx else s.latestSummary.getD "")⟩

/-- The per-candidate step of the query arm of rank_sessions: skip a
session without a truthy backend, analyze its file, keep it (with match
fields) only when at least one match was counted. -/
def rankQueryStep (fs : List (String × FileData)) (q : String)
    (acc : List Session) (s : Session) : Except String (List Session) :=
  match s.backend with
  | none => pure acc
  | some b =>
    if b == "" then pure acc
    else do
      let mc ← analyze_session_query b (lookupFd fs s.path) q
      if mc.1 > 0 then pure (acc ++ [withMatch s mc.1 mc.2])
      else pure acc

/-- Embeds as_i_was_saying.rank_sessions.  A falsy query (absent or empty)
selects recency mode; query mode analyzes each candidate's file and can
propagate the exceptions analyze_session_query can raise. -/
def rank_sessions (fs : List (String × FileData)) (sessions : List Session)
    (query : Option String) : Except String (List Session) :=
  let q := match query with | none => "" | some q => q
  if q == "" then
    .ok (pySorted recencyLE sessions)
  else do
    let ranked ← sessions.foldlM (rankQueryStep fs q) ([] : List Session)
    .ok (pySorted queryLE ranked)

/-- One file met by the recursive walk of a backend storage root. -/
structure FileEnt where
  path : String
  name : String
  mtime : Int
  size : Int

/-- Python Path.stem: the final component without its last suffix. -/
def pathStem (name : String) : String :=
  match splitChar '.' name.data with
  | [] => name
  | [_] => name
  | parts => String.intercalate "." ((parts.dropLast).map String.mk)

/-- Embeds as_i_was_saying.extract_session_id on the file stem. -/
def extract_session_id (stem : String) (backend : String) : String :=
  if backend == "claude" then
    ((splitChar '-' stem.data).headD stem.data).asString
  else if backend == "codex" then
    let stem2 := if strStartsWith stem "rollout-"
      then String.mk (stem.data.drop 8) else stem
    ((splitChar '-' stem2.data).getLastD stem2.data).asString
  else if backend == "gemini" then
    let stem2 := if strStartsWith stem "session-"
      then String.mk (stem.data.drop 8) else stem
    ((splitChar '-' stem2.data).getLastD stem2.data).asString
  else stem

/-- A minimal scan descriptor as appended by find_recent_sessions. -/
def scanDescriptor (f : FileEnt) (backend : String) : Session :=
  ⟨f.path, f.mtime, f.size, none, some (extract_session_id (pathStem f.name)
    backend), none, none, none, none⟩

/-- The per-file step of the claude/codex scan arm: the rglob("*.jsonl")
pattern becomes the extension filter, the sub-agent exclusion applies only
to claude, and the mtime cutoff drops old files before any content read. -/
def scanStep (backend : String) (cutoff : Option Int) (acc : List Session)
    (f : FileEnt) : List Session :=
  if !(strEndsWith f.name ".jsonl") then acc
  else if backend == "claude" && containsSub "agent-".data f.name.data then
    acc
  else
    match cutoff with
    | some c => if f.mtime < c then acc else acc ++ [scanDescriptor f backend]
    | none => acc ++ [scanDescriptor f backend]

/-- Embeds the claude/codex arm of as_i_was_saying.find_recent_sessions
(lines 240-258): the recursive walk is modelled by the input file list. -/
def scan_line_backend (backend : String) (files : List FileEnt)
    (cutoff : Option Int) : List Session :=
  files.foldl (scanStep backend cutoff) []

/-- The mtime-only descending sort key used before enrichment
(sessions.sort(key=mtime, reverse=True)). -/
def mtimeLE (a b : Session) : Bool := decide (b.mtime ≤ a.mtime)

/-- Attaches summary fields to a session, as enrichment does. -/
def withSummaries (s : Session) (latest earliest : String) : Session :=
  ⟨s.path, s.mtime, s.size, s.backend, s.sessionId,
   some (truncate_snippet latest 50),
   some (truncate_snippet earliest 50), s.matchCount, s.matchContext⟩

/-- The enrichment loop of find_recent_sessions (lines 262-278): reads each
candidate's context, skips sessions with no (or falsy) latest user text, and
stops once limit sessions validated. -/
def enrichLoop (fs : List (String × FileData)) (backend : String)
    (limit : Nat) : List Session → List Session → List Session
  | [], valid => valid
  | s :: rest, valid =>
    let ctx := get_session_context_file backend (lookupFd fs s.path)
    match ctx.1 with
    | none => enrichLoop fs backend limit rest valid
    | some latest =>
      if latest == "" then enrichLoop fs backend limit rest valid
      else
        let earliest :=
          match ctx.2 with
          | some e => if e == "" then latest else e
          | none => latest
        let valid2 := valid ++ [withSummaries s latest earliest]
        if valid2.length ≥ limit then valid2
        else enrichLoop fs backend limit rest valid2

/-- Embeds as_i_was_saying.find_recent_sessions for the two line-delimited
backends: scan, sort by mtime descending, then enrich at most limit * 2
candidates.  The gemini directory-walk arm is not modelled; no claim
quantifies over it. -/
def find_recent_sessions (backend : String) (files : List FileEnt)
    (fs : List (String × FileData)) (limit : Nat) (cutoff : Option Int) :
    List Session :=
  let sessions := scan_line_backend backend files cutoff
  let sessions := pySorted mtimeLE sessions
  enrichLoop fs backend limit (sessions.take (limit * 2)) []

/-- Modelled from the spec: a resolution candidate as consumed by
resolve_session_by_id, which is referenced by the repository's tests but
absent from src/; spec section 4.4 defines its contract. -/
structure Candidate where
  path : String
  backend : String
  sessionId : String
  fullSessionId : String

/-- Modelled from the spec: the caller-visible outcomes of identifier
resolution (found, refused short input, ambiguous, not found). -/
inductive ResolveOutcome where
  | found (c : Candidate)
  | tooShort
  | ambiguous (cs : List Candidate)
  | notFound

/-- Modelled from the spec: resolve_session_by_id (absent from src/,
referenced by tests).  Step 1: an exact match against the short or long
identifier wins immediately when exactly one candidate matches.  Step 2:
identifiers shorter than the minimum length are refused for matching
by initial segment.  Steps 3-5: a unique long-identifier extension is
returned, several raise ambiguity, none raises not-found. -/
def resolve_session_by_id (cands : List Candidate) (ident : String)
    (minLen : Nat) : ResolveOutcome :=
  let exact := cands.filter
    (fun c => c.sessionId == ident || c.fullSessionId == ident)
  match exact with
  | [c] => .found c
  | _ =>
    if ident.length < minLen then .tooShort
    else
      match cands.filter (fun c => strStartsWith c.fullSessionId ident) with
      | [c] => .found c
      | [] => .notFound
      | cs => .ambiguous cs

/-- Left rotation of a 32-bit word modelled as a Nat below 2^32. -/
def rotl32 (n k : Nat) : Nat :=
  ((n <<< k) % 4294967296) ||| (n >>> (32 - k))

/-- UTF-8 encoding of one character. -/
def utf8Bytes (c : Char) : List Nat :=
  let n := c.toNat
  if n < 128 then [n]
  else if n < 2048 then [192 + n / 64, 128 + n % 64]
  else if n < 65536 then
    [224 + n / 4096, 128 + (n / 64) % 64, 128 + n % 64]
  else
    [240 + n / 262144, 128 + (n / 4096) % 64, 128 + (n / 64) % 64,
     128 + n % 64]

/-- UTF-8 bytes of a string, as value.encode("utf-8") yields. -/
def strBytes (s : String) : List Nat :=
  s.data.foldl (fun acc c => acc ++ utf8Bytes c) []

/-- Big-endian 8-byte encoding of a length in bits. -/
def be64 (n : Nat) : List Nat :=
  (List.range 8).map (fun i => (n >>> ((7 - i) * 8)) % 256)

/-- SHA-1 message padding. -/
def sha1pad (msg : List Nat) : List Nat :=
  let padLen := (55 + 64 - msg.length % 64) % 64
  msg ++ [128] ++ List.replicate padLen 0 ++ be64 (msg.length * 8)

/-- Splits a byte list into 64-byte chunks (fuel-driven). -/
def chunksGo : Nat → List Nat → List (List Nat)
  | 0, _ => []
  | _, [] => []
  | fuel + 1, l => l.take 64 :: chunksGo fuel (l.drop 64)

/-- The sixteen 32-bit big-endian words of one chunk. -/
def words16 (block : List Nat) : List Nat :=
  (List.range 16).map (fun i =>
    ((block.getD (4 * i) 0) <<< 24) + ((block.getD (4 * i + 1) 0) <<< 16) +
    ((block.getD (4 * i + 2) 0) <<< 8) + block.getD (4 * i + 3) 0)

/-- SHA-1 message-schedule extension from 16 to 80 words. -/
def extendW (w : List Nat) : List Nat :=
  (List.range 64).foldl (fun w _ =>
    w ++ [rotl32 (((w.getD (w.length - 3) 0) ^^^ (w.getD (w.length - 8) 0)) ^^^
      ((w.getD (w.length - 14) 0) ^^^ (w.getD (w.length - 16) 0))) 1]) w

/-- One SHA-1 compression round. -/
def sha1round (st : Nat × Nat × Nat × Nat × Nat) (i wi : Nat) :
    Nat × Nat × Nat × Nat × Nat :=
  let (a, b, c, d, e) := st
  let f :=
    if i < 20 then (b &&& c) ||| ((b ^^^ 4294967295) &&& d)
    else if i < 40 then b ^^^ c ^^^ d
    else if i < 60 then (b &&& c) ||| (b &&& d) ||| (c &&& d)
    else b ^^^ c ^^^ d
  let k :=
    if i < 20 then 1518500249
    else if i < 40 then 1859775393
    else if i < 60 then 2400959708
    else 3395469782
  let temp := (rotl32 a 5 + f + e + k + wi) % 4294967296
  (temp, a, rotl32 b 30, c, d)

/-- SHA-1 compression of one 64-byte chunk. -/
def sha1chunk (h : Nat × Nat × Nat × Nat × Nat) (block : List Nat) :
    Nat × Nat × Nat × Nat × Nat :=
  let w := extendW (words16 block)
  let st := (List.range 80).foldl (fun st i => sha1round st i (w.getD i 0)) h
  (((h.1 + st.1) % 4294967296), ((h.2.1 + st.2.1) % 4294967296),
   ((h.2.2.1 + st.2.2.1) % 4294967296), ((h.2.2.2.1 + st.2.2.2.1) % 4294967296),
   ((h.2.2.2.2 + st.2.2.2.2) % 4294967296))

/-- A lowercase hexadecimal digit. -/
def hexDigit (n : Nat) : Char :=
  ("0123456789abcdef".data.getD n '0')

/-- Eight lowercase hex digits of a 32-bit word. -/
def hex8 (n : Nat) : List Char :=
  (List.range 8).map (fun i => hexDigit ((n >>> ((7 - i) * 4)) % 16))

/-- hashlib.sha1(value.encode("utf-8")).hexdigest(). -/
def sha1hex (s : String) : String :=
  let bytes := sha1pad (strBytes s)
  let h := (chunksGo (bytes.length + 1) bytes).foldl sha1chunk
    (1732584193, 4023233417, 2562383102, 271733878, 3285377520)
  String.mk (hex8 h.1 ++ hex8 h.2.1 ++ hex8 h.2.2.1 ++ hex8 h.2.2.2.1 ++
    hex8 h.2.2.2.2)

/-- The first ten hex digits, as anonymize_jsonl._stable_token slices. -/
def sha1hex10 (s : String) : String := String.mk ((sha1hex s).data.take 10)

/-- Word characters of the re module's \b for ASCII text. -/
def isWordChar (c : Char) : Bool := c.isAlphanum || c == '_'

/-- Whether a word boundary sits between the previous character (none at
the string start) and the first matched character. -/
def atBoundary (prev : Option Char) (first : Char) : Bool :=
  (match prev with | none => false | some p => isWordChar p) != isWordChar first

/-- Whether a word boundary follows the last matched character. -/
def endBoundary (lastC : Char) (next : Option Char) : Bool :=
  isWordChar lastC != (match next with | none => false | some n => isWordChar n)

/-- Hex-range character of the UUID pattern ([0-9a-f], IGNORECASE). -/
def isHexChar (c : Char) : Bool :=
  c.isDigit || ('a' ≤ c && c ≤ 'f') || ('A' ≤ c && c ≤ 'F')

/-- Local-part character class of EMAIL_RE. -/
def isLocalChar (c : Char) : Bool :=
  c.isAlphanum || c == '.' || c == '_' || c == '%' || c == '+' || c == '-'

/-- Domain character class of EMAIL_RE and HOSTPORT_RE. -/
def isDomainChar (c : Char) : Bool := c.isAlphanum || c == '.' || c == '-'

/-- Whitespace class of the re module's \s (ASCII subset). -/
def isSpaceChar (c : Char) : Bool := isPyWs c

/-- A single substitution driver faithful to re.sub: scan start positions
left to right over the original text, replace each non-empty match, and
resume right after it; prev carries the original character preceding the
scan position for \b tests. -/
def reSubGo (tryM : Option Char → List Char → Option (List Char × List Char))
    (repl : List Char → σ → (List Char × σ)) :
    Nat → Option Char → List Char → List Char → σ → (List Char × σ)
  | 0, _, rest, acc, st => (acc ++ rest, st)
  | fuel + 1, prev, rest, acc, st =>
    match rest with
    | [] => (acc, st)
    | c :: rest2 =>
      match tryM prev rest with
      | some (m, after) =>
        let r := repl m st
        reSubGo tryM repl fuel m.getLast? after (acc ++ r.1) r.2
      | none => reSubGo tryM repl fuel (some c) rest2 (acc ++ [c]) st

/-- re.sub over a whole string with threaded replacement state. -/
def reSub (tryM : Option Char → List Char → Option (List Char × List Char))
    (repl : List Char → σ → (List Char × σ)) (s : List Char) (st : σ) :
    List Char × σ :=
  reSubGo tryM repl (s.length + 1) none s [] st

/-- Match of HOME_PATH_RE (/Users/[^/]+) at one position. -/
def tryHome (_prev : Option Char) (rest : List Char) :
    Option (List Char × List Char) :=
  if "/Users/".data.isPrefixOf rest then
    let tail7 := rest.drop 7
    let run := tail7.takeWhile (fun c => c != '/')
    if run.isEmpty then none
    else some ("/Users/".data ++ run, tail7.drop run.length)
  else none

/-- Takes exactly n characters of the given class. -/
def takeClass (p : Char → Bool) : Nat → List Char → Option (List Char × List Char)
  | 0, cs => some ([], cs)
  | _ + 1, [] => none
  | n + 1, c :: cs =>
    if p c then
      match takeClass p n cs with
      | some (m, rest) => some (c :: m, rest)
      | none => none
    else none

/-- Consumes a literal character. -/
def takeLit (lit : Char) : List Char → Option (List Char)
  | c :: cs => if c == lit then some cs else none
  | [] => none

/-- Match of UUID_RE (\b hex8-4-4-4-12 \b, IGNORECASE) at one position. -/
def tryUuid (prev : Option Char) (rest : List Char) :
    Option (List Char × List Char) :=
  match rest.head? with
  | none => none
  | some first =>
    if !(atBoundary prev first) then none
    else
      (takeClass isHexChar 8 rest).bind (fun p1 =>
      (takeLit '-' p1.2).bind (fun r1 =>
      (takeClass isHexChar 4 r1).bind (fun p2 =>
      (takeLit '-' p2.2).bind (fun r2 =>
      (takeClass isHexChar 4 r2).bind (fun p3 =>
      (takeLit '-' p3.2).bind (fun r3 =>
      (takeClass isHexChar 4 r3).bind (fun p4 =>
      (takeLit '-' p4.2).bind (fun r4 =>
      (takeClass isHexChar 12 r4).bind (fun p5 =>
        let m := p1.1 ++ ['-'] ++ p2.1 ++ ['-'] ++ p3.1 ++ ['-'] ++ p4.1 ++
          ['-'] ++ p5.1
        if endBoundary (m.getLastD ' ') p5.2.head? then some (m, p5.2)
        else none)))))))))

/-- Searches the dot positions of a domain run from the right, returning the
length of the matched domain segment (through the TLD) when the greedy
[A-Za-z0-9.-]+\.[A-Za-z]\x7b2,\x7d\b tail of EMAIL_RE succeeds; nextAfter
gives the character following the whole domain run. -/
def emailDomainSplit (D : List Char) (nextAfter : Option Char) : Option Nat :=
  let dots := (List.range D.length).filter (fun i => D.getD i ' ' == '.')
  dots.reverse.findSome? (fun d =>
    if d < 1 then none
    else
      let alphas := (D.drop (d + 1)).takeWhile Char.isAlpha
      let a := alphas.length
      if a < 2 then none
      else
        let next := match (D.drop (d + 1 + a)).head? with
          | some c => some c
          | none => nextAfter
        match next with
        | none => some (d + 1 + a)
        | some c => if isWordChar c then none else some (d + 1 + a))

/-- Match of EMAIL_RE at one position. -/
def tryEmail (prev : Option Char) (rest : List Char) :
    Option (List Char × List Char) :=
  match rest.head? with
  | none => none
  | some first =>
    if !(isLocalChar first) || !(atBoundary prev first) then none
    else
      let loc := rest.takeWhile isLocalChar
      let afterLoc := rest.drop loc.length
      match afterLoc with
      | '@' :: r2 =>
        let D := r2.takeWhile isDomainChar
        let nextAfter := (r2.drop D.length).head?
        (match emailDomainSplit D nextAfter with
         | some dl => some (loc ++ '@' :: D.take dl, r2.drop dl)
         | none => none)
      | _ => none

/-- Case-insensitive literal match. -/
def takeCI (lit : List Char) (cs : List Char) : Option (List Char × List Char) :=
  match lit, cs with
  | [], cs => some ([], cs)
  | l :: ls, c :: cs2 =>
    if c.toLower == l.toLower then
      match takeCI ls cs2 with
      | some (m, rest) => some (c :: m, rest)
      | none => none
    else none
  | _ :: _, [] => none

/-- Match of URL_RE ((https?://)([^/\s]+), IGNORECASE) at one position,
returning the scheme group and the host-port group. -/
def tryUrlGroups (rest : List Char) :
    Option (List Char × List Char × List Char) :=
  match takeCI "http".data rest with
  | none => none
  | some hr =>
    let trySep := fun (pre : List Char) (r : List Char) =>
      match takeCI "://".data r with
      | some sepr => some (pre ++ sepr.1, sepr.2)
      | none => none
    let stage2 :=
      match hr.2 with
      | c :: r1b =>
        if c.toLower == 's' then
          match trySep (hr.1 ++ [c]) r1b with
          | some ok => some ok
          | none => trySep hr.1 hr.2
        else trySep hr.1 hr.2
      | [] => none
    match stage2 with
    | none => none
    | some sr =>
      let hostport := sr.2.takeWhile (fun c => !(c == '/') && !(isSpaceChar c))
      if hostport.isEmpty then none
      else some (sr.1, hostport, sr.2.drop hostport.length)

/-- URL_RE match shaped for the substitution driver. -/
def tryUrl (_prev : Option Char) (rest : List Char) :
    Option (List Char × List Char) :=
  match tryUrlGroups rest with
  | some g => some (g.1 ++ g.2.1, g.2.2)
  | none => none

/-- Match of HOSTPORT_RE (\b([A-Za-z0-9.-]+\.[A-Za-z]\x7b2,\x7d)(:\d\x7b2,5\x7d)\b)
at one position: the greedy TLD must reach the end of the domain run, right
before the colon. -/
def tryHostPort (prev : Option Char) (rest : List Char) :
    Option (List Char × List Char) :=
  match rest.head? with
  | none => none
  | some first =>
    if !(isDomainChar first) || !(atBoundary prev first) then none
    else
      let R := rest.takeWhile isDomainChar
      let afterR := rest.drop R.length
      match afterR with
      | ':' :: r2 =>
        let dots := (List.range R.length).filter (fun i => R.getD i ' ' == '.')
        (match dots.getLast? with
         | none => none
         | some d =>
           if d < 1 then none
           else
             let alphas := (R.drop (d + 1)).takeWhile Char.isAlpha
             if alphas.length < 2 || d + 1 + alphas.length != R.length then none
             else
               let digits := r2.takeWhile Char.isDigit
               let m := digits.length
               if m < 2 || m > 5 then none
               else
                 match (r2.drop m).head? with
                 | some c =>
                   if isWordChar c then none
                   else some (R ++ ':' :: digits, r2.drop m)
                 | none => some (R ++ ':' :: digits, r2.drop m))
      | _ => none

/-- Sets a key in a Python string-to-string dict. -/
def mapSet (k v : String) : List (String × String) → List (String × String)
  | [] => [(k, v)]
  | (k2, v2) :: rest =>
    if k2 == k then (k, v) :: rest else (k2, v2) :: mapSet k v rest

/-- Embeds anonymize_jsonl._stable_token: a cached, content-hashed token
prefix-digest pair; the cache hit requires a truthy stored token. -/
def stable_token (value pre : String) (mapping : List (String × String)) :
    String × List (String × String) :=
  match mapping.lookup value with
  | some existing =>
    if existing != "" then (existing, mapping)
    else
      let token := pre ++ "-" ++ sha1hex10 value
      (token, mapSet value token mapping)
  | none =>
    let token := pre ++ "-" ++ sha1hex10 value
    (token, mapSet value token mapping)

/-- The per-category token maps threaded through one anonymization run. -/
structure Mappings where
  uuid : List (String × String)
  email : List (String × String)
  host : List (String × String)

/-- The empty per-run mappings anonymize_file starts from. -/
def emptyMappings : Mappings := ⟨[], [], []⟩

/-- UUID_RE replacement. -/
def uuidRepl (m : List Char) (st : Mappings) : List Char × Mappings :=
  let r := stable_token (String.mk m) "UUID" st.uuid
  (r.1.data, ⟨r.2, st.email, st.host⟩)

/-- EMAIL_RE replacement. -/
def emailRepl (m : List Char) (st : Mappings) : List Char × Mappings :=
  let r := stable_token (String.mk m) "EMAIL" st.email
  (r.1.data, ⟨st.uuid, r.2, st.host⟩)

/-- Splits a matched URL at its "://" separator, recovering the two groups
of URL_RE from the match text. -/
def splitScheme (m : List Char) : List Char × List Char :=
  match m with
  | ':' :: '/' :: '/' :: rest => ([':', '/', '/'], rest)
  | c :: rest =>
    let r := splitScheme rest
    (c :: r.1, r.2)
  | [] => ([], [])

/-- Python hostport.split("@", 1). -/
def splitFirstAt (sep : Char) (cs : List Char) : Option (List Char × List Char) :=
  match cs with
  | [] => none
  | c :: rest =>
    if c == sep then some ([], rest)
    else
      match splitFirstAt sep rest with
      | some p => some (c :: p.1, p.2)
      | none => none

/-- Python hostport.rsplit(":", 1). -/
def splitLastAt (sep : Char) (cs : List Char) : Option (List Char × List Char) :=
  match splitFirstAt sep cs.reverse with
  | some p => some (p.2.reverse, p.1.reverse)
  | none => none

/-- URL_RE replacement (_url_repl): userinfo collapsed to a marker, host
tokenized, a numeric port preserved. -/
def urlRepl (m : List Char) (st : Mappings) : List Char × Mappings :=
  let sm := splitScheme m
  let scheme := sm.1
  let hostport0 := sm.2
  let ui :=
    match splitFirstAt '@' hostport0 with
    | some p => (some p.1, p.2)
    | none => (none, hostport0)
  let hostport := ui.2
  let hp :=
    match splitLastAt ':' hostport with
    | some p =>
      if !p.2.isEmpty && p.2.all Char.isDigit then (p.1, ':' :: p.2)
      else (hostport, [])
    | none => (hostport, [])
  let r := stable_token (String.mk hp.1) "HOST" st.host
  let out := scheme ++
    (match ui.1 with
     | some _ => "USERINFO@".data
     | none => []) ++ r.1.data ++ hp.2
  (out, ⟨st.uuid, st.email, r.2⟩)

/-- HOSTPORT_RE replacement (_hostport_repl). -/
def hostportRepl (m : List Char) (st : Mappings) : List Char × Mappings :=
  let p :=
    match splitFirstAt ':' m with
    | some p => p
    | none => (m, [])
  let r := stable_token (String.mk p.1) "HOST" st.host
  (r.1.data ++
    (match splitFirstAt ':' m with
     | some q => ':' :: q.2
     | none => []), ⟨st.uuid, st.email, r.2⟩)

/-- The trailing truncation of anonymize_jsonl._redact_string: a head/tail
window around a marker naming the original length (maxLen // 2 leading and
ceil(maxLen / 2) trailing characters, from the Python slice pair
value[: max_len // 2] and value[- max_len // 2 :]). -/
def truncateLong (cs : List Char) (maxLen : Nat) : List Char :=
  if cs.length > maxLen then
    cs.take (maxLen / 2) ++
    ("[TRUNCATED len=" ++ toString cs.length ++ "]").data ++
    cs.drop (cs.length - (maxLen + 1) / 2)
  else cs

/-- Embeds anonymize_jsonl._redact_string: home paths, then UUIDs, emails,
URL hosts and bare host:port pairs, each substituted over the previous
stage's output with the shared token maps, then the length bound. -/
def redact_string (value : String) (st : Mappings) (maxLen : Nat) :
    String × Mappings :=
  if value == "" then (value, st)
  else
    let v1 := (reSub tryHome (fun _ u => ("/Users/USER".data, u))
      value.data ()).1
    let r2 := reSub tryUuid uuidRepl v1 st
    let r3 := reSub tryEmail emailRepl r2.1 r2.2
    let r4 := reSub tryUrl urlRepl r3.1 r3.2
    let r5 := reSub tryHostPort hostportRepl r4.1 r4.2
    (String.mk (truncateLong r5.1 maxLen), r5.2)

/-- One-shot redaction of a string from a fresh run with the default
2000-character bound. -/
def redactOnce (value : String) : String :=
  (redact_string value emptyMappings 2000).1

/-- The timestamp of the first event of a normalizer result. -/
def firstEventTimestamp (r : Except String (List Event)) : JSON :=
  match r with
  | .ok (e :: _) => e.timestamp
  | _ => .null

/-- Whether every event of an ok normalizer result carries at least one
block. -/
def eventsBlocksNonempty (r : Except String (List Event)) : Bool :=
  match r with
  | .ok evs => evs.all (fun e => !e.blocks.isEmpty)
  | .error _ => true

/-- The paths of a ranking result. -/
def rankedPaths (r : Except String (List Session)) : List String :=
  match r with
  | .ok l => l.map (fun s => s.path)
  | .error _ => []

/-- A bare scan-stage session fixture. -/
def mkSess (p : String) (m : Int) (b : Option String) : Session :=
  ⟨p, m, 0, b, none, none, none, none, none⟩

/-- A claude user record with plain string content. -/
def claudeUserRec (t : String) : JSON :=
  .obj [("type", .str "user"), ("message", .obj [("content", .str t)])]

/-- Fixture filesystem for the query-ranking instance: files one and two
hold three query hits, three holds one, zero holds none. -/
def fs4 : List (String × FileData) :=
  [("one", .lines [claudeUserRec "auth auth auth"]),
   ("two", .lines [claudeUserRec "auth auth auth"]),
   ("three", .lines [claudeUserRec "auth x"]),
   ("zero", .lines [claudeUserRec "nothing here"])]

/-- Fixture sessions with mtimes one:100, two:300, three:200. -/
def sess4 : List Session :=
  [mkSess "one" 100 (some "claude"), mkSess "two" 300 (some "claude"),
   mkSess "three" 200 (some "claude"), mkSess "zero" 50 (some "claude")]

/-- The session_meta record carrying both a row timestamp and an inner
payload timestamp. -/
def c3raw : List (String × JSON) :=
  [("type", .str "session_meta"), ("timestamp", .str "row-ts"),
   ("payload", .obj [("timestamp", .str "p-ts")])]

/-- C3: the spec says the meta event's timestamp prefers the inner payload
timestamp over the row timestamp.  The code computes
timestamp or payload.get("timestamp", ""), which prefers the row value: on a
session_meta record carrying both, the event keeps the row timestamp. -/
theorem claim_C3_cex :
    firstEventTimestamp (normalize_codex_event c3raw) = .str "row-ts" ∧
    (JSON.str "row-ts" ≠ JSON.str "p-ts") := by
  refine ⟨rfl, ?_⟩
  intro h
  injection h with h2
  exact absurd h2 (by decide)

/-- C3 (amended): the meta event's timestamp is the row timestamp whenever
the row carries a truthy one; only for session_meta with a falsy row
timestamp does it fall back to the payload timestamp, and turn_context
always uses the row timestamp. -/
theorem claim_C3_amended :
    (∀ raw, dictGet raw "type" .null = .str "session_meta" →
      truthy (dictGet raw "timestamp" (.str "")) = true →
      normalize_codex_event raw =
        .ok [⟨.str "meta", dictGet raw "timestamp" (.str ""),
              [metaBlock "Session Meta" (dictGet raw "payload" (.obj []))]⟩]) ∧
    (∀ raw pkvs, dictGet raw "type" .null = .str "session_meta" →
      truthy (dictGet raw "timestamp" (.str "")) = false →
      dictGet raw "payload" (.obj []) = .obj pkvs →
      normalize_codex_event raw =
        .ok [⟨.str "meta", dictGet pkvs "timestamp" (.str ""),
              [metaBlock "Session Meta" (.obj pkvs)]⟩]) ∧
    (∀ raw, dictGet raw "type" .null = .str "turn_context" →
      normalize_codex_event raw =
        .ok [⟨.str "meta", dictGet raw "timestamp" (.str ""),
              [metaBlock "Turn Context" (dictGet raw "payload" (.obj []))]⟩]) := by
  refine ⟨?_, ?_, ?_⟩
  · intro raw htype hts
    simp [normalize_codex_event, htype, hts, isStr]
  · intro raw pkvs htype hts hpay
    simp [normalize_codex_event, htype, hts, hpay, isStr, pyGet, bind,
      Except.bind]
  · intro raw htype
    simp [normalize_codex_event, htype, isStr]

/-- C3 witness: the amended preference evaluated on the record carrying both
timestamps. -/
theorem claim_C3_amended_wit :
    normalize_codex_event c3raw =
      .ok [⟨.str "meta", .str "row-ts",
            [metaBlock "Session Meta" (.obj [("timestamp", .str "p-ts")])]⟩] :=
  claim_C3_amended.1 c3raw rfl rfl

/-- The exact-match candidate of the repository's selector test. -/
def candExact : Candidate := ⟨"/tmp/exact.jsonl", "claude", "abc12345", "abc12345"⟩

/-- The longer candidate whose long identifier extends the input. -/
def candLonger : Candidate :=
  ⟨"/tmp/pre.jsonl", "claude", "abc123456789", "abc123456789"⟩

/-- C6: when exactly one candidate matches the input exactly (short or long
identifier), resolution returns it and never reports ambiguity, whatever
other candidates merely extend the input. -/
theorem claim_C6 :
    ∀ cands ident minLen c,
      cands.filter (fun cd =>
        cd.sessionId == ident || cd.fullSessionId == ident) = [c] →
      resolve_session_by_id cands ident minLen = .found c := by
  intro cands ident minLen c h
  simp only [resolve_session_by_id, h]

/-- C6 witness: the exact candidate wins over a candidate whose long
identifier strictly extends the input. -/
theorem claim_C6_wit :
    resolve_session_by_id [candExact, candLonger] "abc12345" 6 =
      .found candExact :=
  claim_C6 [candExact, candLonger] "abc12345" 6 candExact rfl

/-- Splits a successful Except bind into its two successful stages. -/
theorem bind_ok_elim {α β : Type} {x : Except String α} {f : α → Except String β}
    {b : β} (h : (x >>= f) = .ok b) : ∃ a, x = .ok a ∧ f a = .ok b := by
  cases x with
  | error e => simp [bind, Except.bind] at h
  | ok v => exact ⟨v, rfl, by simpa [bind, Except.bind] using h⟩

/-- C2: the spec says a normalizer never emits an event with zero blocks.
The gemini normalizer does: a "gemini" message with no thoughts, no content
and no tool calls yields one assistant event whose block list is empty. -/
theorem claim_C2_cex :
    eventsBlocksNonempty (normalize_gemini_event [("type", .str "gemini")]) =
      false := rfl

theorem codexSplitStep_blocks (timestamp : JSON) :
    ∀ (items : List JSON) (acc : List Event), (∀ e ∈ acc, e.blocks ≠ []) →
      ∀ e ∈ items.foldl (codexSplitStep timestamp) acc, e.blocks ≠ [] := by
  intro items
  induction items with
  | nil => intro acc h; simpa using h
  | cons it its ih =>
    intro acc h
    simp only [List.foldl_cons]
    apply ih
    intro e he
    unfold codexSplitStep at he
    cases it with
    | obj ikvs =>
      simp only at he
      split at he
      · exact h e he
      · rcases List.mem_append.mp he with hm | hm
        · exact h e hm
        · rcases List.mem_singleton.mp hm with rfl
          simp
    | null => exact h e he
    | bool b => exact h e he
    | num n => exact h e he
    | str s2 => exact h e he
    | arr xs => exact h e he

/-- C2 (amended): the claude and codex normalizers never emit an event with
an empty block list (claude guards explicitly; every codex branch builds at
least one block), but the gemini normalizer can, for a thought-free,
content-free, call-free "gemini" message. -/
theorem claim_C2_amended :
    (∀ raw evs, normalize_claude_event raw = .ok evs →
      ∀ e ∈ evs, e.blocks ≠ []) ∧
    (∀ raw evs, normalize_codex_event raw = .ok evs →
      ∀ e ∈ evs, e.blocks ≠ []) := by
  constructor
  · intro raw evs h e he
    unfold normalize_claude_event at h
    dsimp only at h
    split at h
    · split at h
      · split at h
        · rcases Except.ok.inj h with rfl
          simp at he
        · rcases Except.ok.inj h with rfl
          rcases List.mem_singleton.mp he with rfl
          rename_i hne
          intro hnil
          dsimp only at hnil
          exact hne (by rw [hnil]; rfl)
      · exact Except.noConfusion h
    · rcases Except.ok.inj h with rfl
      simp at he
  · intro raw evs h e he
    unfold normalize_codex_event at h
    dsimp only at h
    split at h
    · -- session_meta
      split at h
      · rcases Except.ok.inj h with rfl
        rcases List.mem_singleton.mp he with rfl
        simp
      · rcases bind_ok_elim h with ⟨pts, _, h⟩
        rcases Except.ok.inj h with rfl
        rcases List.mem_singleton.mp he with rfl
        simp
    · split at h
      · -- turn_context
        rcases Except.ok.inj h with rfl
        rcases List.mem_singleton.mp he with rfl
        simp
      · split at h
        · -- event_msg
          rcases bind_ok_elim h with ⟨pkvs, _, h⟩
          split at h
          · rcases Except.ok.inj h with rfl
            rcases List.mem_singleton.mp he with rfl; simp
          · split at h
            · rcases Except.ok.inj h with rfl
              rcases List.mem_singleton.mp he with rfl; simp
            · split at h
              · rcases Except.ok.inj h with rfl
                rcases List.mem_singleton.mp he with rfl; simp
              · split at h
                · rcases Except.ok.inj h with rfl
                  rcases List.mem_singleton.mp he with rfl; simp
                · rcases Except.ok.inj h with rfl
                  rcases List.mem_singleton.mp he with rfl; simp
        · split at h
          · -- unrecognized top-level type
            rcases Except.ok.inj h with rfl
            simp at he
          · -- response_item
            rcases bind_ok_elim h with ⟨pkvs, _, h⟩
            split at h
            · -- message: match on content
              split at h
              · -- content is a list
                split at h
                · -- truthy role: joined text
                  rcases bind_ok_elim h with ⟨text, _, h⟩
                  split at h
                  · rcases Except.ok.inj h with rfl
                    simp at he
                  · rcases Except.ok.inj h with rfl
                    rcases List.mem_singleton.mp he with rfl; simp
                · -- role-less: one event per item
                  rcases Except.ok.inj h with rfl
                  exact codexSplitStep_blocks _ _ [] (by simp) e he
              all_goals
                rcases Except.ok.inj h with rfl
                simp at he
            · split at h
              · -- function_call
                rcases Except.ok.inj h with rfl
                rcases List.mem_singleton.mp he with rfl; simp
              · split at h
                · -- function_call_output
                  rcases Except.ok.inj h with rfl
                  rcases List.mem_singleton.mp he with rfl; simp
                · split at h
                  · -- reasoning
                    rcases bind_ok_elim h with ⟨thinking, _, h⟩
                    rcases Except.ok.inj h with rfl
                    rcases List.mem_singleton.mp he with rfl; simp
                  · -- unknown response_item sub-type
                    rcases Except.ok.inj h with rfl
                    rcases List.mem_singleton.mp he with rfl; simp

/-- C2 witness: the codex branch applied to a concrete user_message record,
whose single event carries one block. -/
theorem claim_C2_amended_wit :
    (⟨.str "user", .str "t", [textBlock (.str "u")]⟩ : Event).blocks ≠ [] :=
  claim_C2_amended.2
    [("type", .str "event_msg"), ("timestamp", .str "t"),
     ("payload", .obj [("type", .str "user_message"), ("text", .str "u")])]
    [⟨.str "user", .str "t", [textBlock (.str "u")]⟩] rfl
    ⟨.str "user", .str "t", [textBlock (.str "u")]⟩
    (List.mem_singleton.mpr rfl)

/-- C1: the spec says no JSON-like record makes a normalizer throw.  The
codex normalizer calls payload.get on a recognized event_msg record, so a
numeric payload raises an AttributeError. -/
theorem claim_C1_cex :
    normalize_codex_event [("type", .str "event_msg"), ("payload", .num 5)] =
      .error "AttributeError: not a dict" := rfl

/-- C1 (amended): an unrecognized top-level discriminator yields the empty
event sequence for all three backends, and a recognized codex top-level type
with a dict payload and an unrecognized sub-type yields exactly one
meta-role event holding a single unknown block that preserves the payload;
the no-throw guarantee however fails for records whose payload is not a
dict. -/
theorem claim_C1_amended :
    (∀ raw, isStr (dictGet raw "type" .null) "user" = false →
      isStr (dictGet raw "type" .null) "assistant" = false →
      normalize_claude_event raw = .ok []) ∧
    (∀ raw, isStr (dictGet raw "type" .null) "session_meta" = false →
      isStr (dictGet raw "type" .null) "turn_context" = false →
      isStr (dictGet raw "type" .null) "event_msg" = false →
      isStr (dictGet raw "type" .null) "response_item" = false →
      normalize_codex_event raw = .ok []) ∧
    (∀ raw, isStr (dictGet raw "type" .null) "user" = false →
      isStr (dictGet raw "type" .null) "gemini" = false →
      isStr (dictGet raw "type" .null) "error" = false →
      isStr (dictGet raw "type" .null) "info" = false →
      normalize_gemini_event raw = .ok []) ∧
    (∀ raw pkvs, dictGet raw "type" .null = .str "event_msg" →
      dictGet raw "payload" (.obj []) = .obj pkvs →
      isStr (dictGet pkvs "type" .null) "user_message" = false →
      isStr (dictGet pkvs "type" .null) "agent_message" = false →
      isStr (dictGet pkvs "type" .null) "agent_reasoning" = false →
      isStr (dictGet pkvs "type" .null) "token_count" = false →
      normalize_codex_event raw =
        .ok [⟨.str "meta", dictGet raw "timestamp" (.str ""),
              [unknownBlock "event_msg" (.obj pkvs)]⟩]) ∧
    (∀ raw pkvs, dictGet raw "type" .null = .str "response_item" →
      dictGet raw "payload" (.obj []) = .obj pkvs →
      isStr (dictGet pkvs "type" .null) "message" = false →
      isStr (dictGet pkvs "type" .null) "function_call" = false →
      isStr (dictGet pkvs "type" .null) "function_call_output" = false →
      isStr (dictGet pkvs "type" .null) "reasoning" = false →
      normalize_codex_event raw =
        .ok [⟨.str "meta", dictGet raw "timestamp" (.str ""),
              [unknownBlock ("response_item:" ++
                pyStr (dictGet pkvs "type" .null)) (.obj pkvs)]⟩]) := by
  refine ⟨?_, ?_, ?_, ?_, ?_⟩
  · intro raw h1 h2
    simp [normalize_claude_event, h1, h2]
  · intro raw h1 h2 h3 h4
    simp [normalize_codex_event, h1, h2, h3, h4]
  · intro raw h1 h2 h3 h4
    unfold normalize_gemini_event
    simp only [h1, h2, Bool.false_eq_true, if_false]
    cases hm : dictGet raw "type" JSON.null with
    | str s =>
      rw [hm] at h3 h4
      simp only [isStr] at h3 h4
      simp [h3, h4]
    | null => rfl
    | bool b => rfl
    | num n => rfl
    | arr xs => rfl
    | obj kvs => rfl
  · intro raw pkvs htype hpay h1 h2 h3 h4
    simp only [normalize_codex_event, htype, hpay, toObj, bind, Except.bind,
      h1, h2, h3, h4]
    simp [isStr]
  · intro raw pkvs htype hpay h1 h2 h3 h4
    simp only [normalize_codex_event, htype, hpay, toObj, bind, Except.bind,
      h1, h2, h3, h4]
    simp [isStr]

/-- C1 witness: an event_msg record with an unrecognized sub-type maps to a
single meta/unknown event preserving the payload. -/
theorem claim_C1_amended_wit :
    normalize_codex_event
      [("type", .str "event_msg"), ("timestamp", .str "t"),
       ("payload", .obj [("type", .str "weird"), ("foo", .str "bar")])] =
      .ok [⟨.str "meta", .str "t",
            [unknownBlock "event_msg"
              (.obj [("type", .str "weird"), ("foo", .str "bar")])]⟩] :=
  claim_C1_amended.2.2.2.1
    [("type", .str "event_msg"), ("timestamp", .str "t"),
     ("payload", .obj [("type", .str "weird"), ("foo", .str "bar")])]
    [("type", .str "weird"), ("foo", .str "bar")] rfl rfl rfl rfl rfl rfl

/-- C5: recency-mode ranking is a permutation of its input sorted by
(mtime, path) descending, and the concrete instance with mtimes
[100, 100, 200] and paths [b, a, z] ranks [z, b, a] from either input
order, showing the path tie-break makes equal-mtime order deterministic. -/
theorem claim_C5 :
    (∀ fs sessions ranked, rank_sessions fs sessions none = .ok ranked →
      ranked.Perm sessions ∧
      ranked.Pairwise (fun a b => recencyLE a b = true)) ∧
    rankedPaths (rank_sessions []
      [mkSess "b" 100 none, mkSess "a" 100 none, mkSess "z" 200 none] none) =
      ["z", "b", "a"] ∧
    rankedPaths (rank_sessions []
      [mkSess "a" 100 none, mkSess "z" 200 none, mkSess "b" 100 none] none) =
      ["z", "b", "a"] := by
  refine ⟨?_, rfl, rfl⟩
  intro fs sessions ranked h
  have h2 : pySorted recencyLE sessions = ranked := by
    simpa [rank_sessions] using h
  subst h2
  exact ⟨pySorted_perm recencyLE sessions,
    pairwise_pySorted recencyLE recencyLE_trans recencyLE_total sessions⟩

/-- C5 witness: the general recency property evaluated at the concrete
three-session instance. -/
theorem claim_C5_wit :
    [mkSess "z" 200 none, mkSess "b" 100 none,
     mkSess "a" 100 none].Pairwise (fun a b => recencyLE a b = true) :=
  (claim_C5.1 []
    [mkSess "b" 100 none, mkSess "a" 100 none, mkSess "z" 200 none]
    [mkSess "z" 200 none, mkSess "b" 100 none, mkSess "a" 100 none] rfl).2

theorem rankQueryStep_fold_pos (fs : List (String × FileData)) (q : String) :
    ∀ (sessions acc l : List Session),
      (∀ s ∈ acc, s.matchCount.getD 0 > 0) →
      sessions.foldlM (rankQueryStep fs q) acc = .ok l →
      ∀ s ∈ l, s.matchCount.getD 0 > 0 := by
  intro sessions
  induction sessions with
  | nil =>
    intro acc l hacc h
    simp only [List.foldlM_nil, pure] at h
    rcases Except.ok.inj h with rfl
    exact hacc
  | cons s ss ih =>
    intro acc l hacc h
    rw [List.foldlM_cons] at h
    rcases bind_ok_elim h with ⟨acc2, hstep, h⟩
    refine ih acc2 l ?_ h
    intro t ht
    unfold rankQueryStep at hstep
    split at hstep
    · simp only [pure] at hstep
      rcases Except.ok.inj hstep with rfl
      exact hacc t ht
    · split at hstep
      · simp only [pure] at hstep
        rcases Except.ok.inj hstep with rfl
        exact hacc t ht
      · rcases bind_ok_elim hstep with ⟨mc, _, hstep⟩
        split at hstep
        case isTrue hpos =>
          simp only [pure] at hstep
          rcases Except.ok.inj hstep with rfl
          rcases List.mem_append.mp ht with hm | hm
          · exact hacc t hm
          · rcases List.mem_singleton.mp hm with rfl
            simpa [withMatch] using hpos
        case isFalse =>
          simp only [pure] at hstep
          rcases Except.ok.inj hstep with rfl
          exact hacc t ht

theorem rank_query_shape (fs : List (String × FileData)) (q : String)
    (sessions ranked : List Session) (hq : (q == "") = false)
    (h : rank_sessions fs sessions (some q) = .ok ranked) :
    ∃ l, sessions.foldlM (rankQueryStep fs q) [] = .ok l ∧
      ranked = pySorted queryLE l := by
  unfold rank_sessions at h
  simp only [hq, Bool.false_eq_true, if_false] at h
  rcases bind_ok_elim h with ⟨l, hfold, h2⟩
  exact ⟨l, hfold, (Except.ok.inj h2).symm⟩

/-- Written from the spec sentence for comparison with the code: the
query-match count over the concatenation of all text-block contents of the
normalized events, case-insensitively. -/
def specQueryMatchCount (events : List Event) (query : String) : Nat :=
  let texts := events.foldl (fun acc e =>
    acc ++ e.blocks.foldl (fun acc2 b =>
      match b with
      | .obj kvs =>
        if isStr (dictGet kvs "type" .null) "text" then
          match dictGet kvs "text" (.str "") with
          | .str s => acc2 ++ [s]
          | _ => acc2
        else acc2
      | _ => acc2) []) ([] : List String)
  pyCount (pyLower (String.join texts)) (pyLower query)

/-- The spec-described count applied to one normalized file. -/
def specCountOfFile (backend : String) (fd : FileData) (q : String) : Nat :=
  match collect_events backend fd with
  | .ok evs => specQueryMatchCount evs q
  | .error _ => 0

/-- A record whose two text blocks hold "xa" and "by": the query "ab"
spans the block boundary. -/
def spanRec : JSON :=
  .obj [("type", .str "user"), ("message", .obj [("content",
    .arr [.obj [("type", .str "text"), ("text", .str "xa")],
          .obj [("type", .str "text"), ("text", .str "by")]])])]

/-- Fixture filesystem holding only the boundary-spanning session. -/
def fsSpan : List (String × FileData) := [("s", .lines [spanRec])]

/-- C4: the spec counts occurrences in the concatenation of all text-block
contents; the code counts per block and sums.  A query spanning a block
boundary has one concatenation occurrence yet a zero code count, so ranking
discards the candidate the claim says survives. -/
theorem claim_C4_cex :
    rank_sessions fsSpan [mkSess "s" 1 (some "claude")] (some "ab") =
      .ok [] ∧
    specCountOfFile "claude" (.lines [spanRec]) "ab" = 1 := ⟨rfl, rfl⟩

/-- The ranked result of the concrete query instance. -/
def rankedAuth : List Session :=
  [withMatch (mkSess "two" 300 (some "claude")) 3 "auth auth auth",
   withMatch (mkSess "one" 100 (some "claude")) 3 "auth auth auth",
   withMatch (mkSess "three" 200 (some "claude")) 1 "auth x"]

/-- C4 (amended): query-mode ranking counts case-insensitive non-overlapping
occurrences of the lowercased, stripped query within each text block
separately and sums them (boundary-spanning occurrences are not counted),
discards every candidate with zero matches, and sorts survivors by
(match_count, mtime, path) descending; the concrete instance with counts
one:3, two:3, three:1 and mtimes one:100, two:300, three:200 ranks
[two, one, three]. -/
theorem claim_C4_amended :
    (∀ fs q sessions ranked, (q == "") = false →
      rank_sessions fs sessions (some q) = .ok ranked →
      (∀ s ∈ ranked, s.matchCount.getD 0 > 0) ∧
      ranked.Pairwise (fun a b => queryLE a b = true)) ∧
    rank_sessions fs4 sess4 (some "auth") = .ok rankedAuth := by
  refine ⟨?_, rfl⟩
  intro fs q sessions ranked hq h
  rcases rank_query_shape fs q sessions ranked hq h with ⟨l, hfold, rfl⟩
  constructor
  · intro s hs
    exact rankQueryStep_fold_pos fs q sessions [] l (by simp) hfold s
      ((pySorted_perm queryLE l).mem_iff.mp hs)
  · exact pairwise_pySorted queryLE queryLE_trans queryLE_total l

/-- C4 witness: the general query-ranking properties evaluated on the
concrete instance: the top-ranked session has a positive count and the
concrete result is sorted by the descending (count, mtime, path) key. -/
theorem claim_C4_amended_wit :
    (withMatch (mkSess "two" 300 (some "claude")) 3
      "auth auth auth").matchCount.getD 0 > 0 ∧
    rankedAuth.Pairwise (fun a b => queryLE a b = true) := by
  have h := claim_C4_amended.1 fs4 "auth" sess4 rankedAuth rfl
    claim_C4_amended.2
  exact ⟨h.1 _ (by simp [rankedAuth]), h.2⟩

theorem scanStep_fold_mem (backend : String) (cutoff : Option Int) :
    ∀ (files : List FileEnt) (acc : List Session) (s : Session),
      s ∈ files.foldl (scanStep backend cutoff) acc →
      s ∈ acc ∨ ∃ f ∈ files, s = scanDescriptor f backend ∧
        strEndsWith f.name ".jsonl" = true ∧
        (backend = "claude" → containsSub "agent-".data f.name.data = false) := by
  intro files
  induction files with
  | nil => intro acc s h; exact Or.inl h
  | cons f fs ih =>
    intro acc s h
    simp only [List.foldl_cons] at h
    rcases ih (scanStep backend cutoff acc f) s h with hm | ⟨g, hg, hrest⟩
    · unfold scanStep at hm
      split at hm
      case isTrue => exact Or.inl hm
      case isFalse hno =>
        have hext : strEndsWith f.name ".jsonl" = true := by simpa using hno
        split at hm
        case isTrue => exact Or.inl hm
        case isFalse hand =>
          have hagent : backend = "claude" →
              containsSub "agent-".data f.name.data = false := by
            intro hb
            subst hb
            cases hc : containsSub "agent-".data f.name.data
            · rfl
            · exact absurd (by simp [hc]) hand
          split at hm
          case h_1 c =>
            split at hm
            case isTrue => exact Or.inl hm
            case isFalse =>
              rcases List.mem_append.mp hm with hm2 | hm2
              · exact Or.inl hm2
              · exact Or.inr ⟨f, List.mem_cons_self f fs,
                  List.mem_singleton.mp hm2, hext, hagent⟩
          case h_2 =>
            rcases List.mem_append.mp hm with hm2 | hm2
            · exact Or.inl hm2
            · exact Or.inr ⟨f, List.mem_cons_self f fs,
                List.mem_singleton.mp hm2, hext, hagent⟩
    · exact Or.inr ⟨g, List.mem_cons_of_mem f hg, hrest⟩

/-- C9: the spec says both line-delimited backends exclude sub-agent trace
files by the fixed "agent-" name marker.  The code applies that exclusion
only when the backend is claude: a codex scan yields a descriptor for an
agent- file. -/
theorem claim_C9_cex :
    (scan_line_backend "codex"
      [⟨"/p/agent-x.jsonl", "agent-x.jsonl", 100, 5⟩] none).map
        (fun s => s.path) = ["/p/agent-x.jsonl"] := rfl

/-- C9 (amended): both scans walk the file list filtered to the .jsonl log
extension, but only the claude scan excludes files whose name contains the
"agent-" marker; every claude descriptor comes from a non-agent .jsonl
file, while a codex descriptor needs only the extension. -/
theorem claim_C9_amended :
    (∀ files cutoff s, s ∈ scan_line_backend "claude" files cutoff →
      ∃ f ∈ files, s = scanDescriptor f "claude" ∧
        strEndsWith f.name ".jsonl" = true ∧
        containsSub "agent-".data f.name.data = false) ∧
    (∀ files cutoff s, s ∈ scan_line_backend "codex" files cutoff →
      ∃ f ∈ files, s = scanDescriptor f "codex" ∧
        strEndsWith f.name ".jsonl" = true) := by
  constructor
  · intro files cutoff s h
    rcases scanStep_fold_mem "claude" cutoff files [] s h with hm | ⟨f, hf, hd, he, ha⟩
    · simp at hm
    · exact ⟨f, hf, hd, he, ha rfl⟩
  · intro files cutoff s h
    rcases scanStep_fold_mem "codex" cutoff files [] s h with hm | ⟨f, hf, hd, he, _⟩
    · simp at hm
    · exact ⟨f, hf, hd, he⟩

/-- C9 witness: the claude provenance property evaluated on a one-file
walk. -/
theorem claim_C9_amended_wit :
    ∃ f ∈ [(⟨"/p/x.jsonl", "x.jsonl", 100, 5⟩ : FileEnt)],
      scanDescriptor ⟨"/p/x.jsonl", "x.jsonl", 100, 5⟩ "claude" =
        scanDescriptor f "claude" ∧
      strEndsWith f.name ".jsonl" = true ∧
      containsSub "agent-".data f.name.data = false :=
  claim_C9_amended.1 [⟨"/p/x.jsonl", "x.jsonl", 100, 5⟩] none
    (scanDescriptor ⟨"/p/x.jsonl", "x.jsonl", 100, 5⟩ "claude")
    (by simp [scan_line_backend, scanStep, strEndsWith, containsSub])

theorem token_ne_empty (p d : String) : ((p ++ "-" ++ d) != "") = true := by
  rw [bne_iff_ne]
  intro h
  have h2 := congrArg String.data h
  simp [String.data_append] at h2

theorem lookup_mapSet (k v : String) :
    ∀ m : List (String × String), (mapSet k v m).lookup k = some v := by
  intro m
  induction m with
  | nil => simp [mapSet, List.lookup]
  | cons kv rest ih =>
    by_cases h : kv.1 == k
    · simp [mapSet, h, List.lookup]
    · have h0 : (kv.1 == k) = false := Bool.of_not_eq_true h
      have h2 : (k == kv.1) = false :=
        beq_eq_false_iff_ne.mpr (fun he => beq_eq_false_iff_ne.mp h0 he.symm)
      simp only [mapSet]
      rw [if_neg (by simpa using h)]
      simpa [List.lookup, h2] using ih

theorem lookup_mem (k t : String) :
    ∀ m : List (String × String), m.lookup k = some t → (k, t) ∈ m := by
  intro m
  induction m with
  | nil => intro h; simp [List.lookup] at h
  | cons kv rest ih =>
    intro h
    simp only [List.lookup] at h
    split at h
    · rcases Option.some.inj h with rfl
      rename_i hk
      have hk2 : k = kv.1 := by simpa using hk
      rw [hk2, Prod.mk.eta]
      exact List.mem_cons_self kv rest
    · exact List.mem_cons_of_mem kv (ih h)

theorem stable_token_pre (v p : String) (m : List (String × String))
    (h : ∀ kv ∈ m, strStartsWith kv.2 (p ++ "-") = true) :
    strStartsWith (stable_token v p m).1 (p ++ "-") = true := by
  unfold stable_token
  split
  · split
    · rename_i t hl _
      exact h (v, t) (lookup_mem v t m hl)
    · simp only [strStartsWith]
      rw [List.isPrefixOf_iff_prefix]
      have : p ++ "-" ++ sha1hex10 v = (p ++ "-") ++ sha1hex10 v := rfl
      rw [this, String.data_append]
      exact List.prefix_append _ _
  · simp only [strStartsWith]
    rw [List.isPrefixOf_iff_prefix]
    have : p ++ "-" ++ sha1hex10 v = (p ++ "-") ++ sha1hex10 v := rfl
    rw [this, String.data_append]
    exact List.prefix_append _ _

theorem stable_token_det (v p : String) (m : List (String × String)) :
    stable_token v p ((stable_token v p m).2) =
      ((stable_token v p m).1, (stable_token v p m).2) := by
  unfold stable_token
  cases hl : m.lookup v with
  | some t =>
    by_cases ht : (t != "") = true
    · simp [hl, ht]
    · have ht2 : (t != "") = false := Bool.of_not_eq_true ht
      simp [hl, ht2, lookup_mapSet, token_ne_empty]
  | none =>
    simp [hl, lookup_mapSet, token_ne_empty]

/-- C7: within one run the same substring always maps to the same token
(the cache makes a second lookup return the stored token), tokens of
different categories never collide (every token of a category run starts
with its own prefix, and the prefixes differ at their first character), and
redacting "bob@x.com and bob@x.com" yields two identical EMAIL- tokens. -/
theorem claim_C7 :
    (∀ v p m, stable_token v p ((stable_token v p m).2) =
      ((stable_token v p m).1, (stable_token v p m).2)) ∧
    (∀ v1 v2 m1 m2,
      (∀ kv ∈ m1, strStartsWith kv.2 "EMAIL-" = true) →
      (∀ kv ∈ m2, strStartsWith kv.2 "UUID-" = true) →
      (stable_token v1 "EMAIL" m1).1 ≠ (stable_token v2 "UUID" m2).1) ∧
    (∃ dg, (redact_string "bob@x.com and bob@x.com" emptyMappings 2000).1 =
      "EMAIL-" ++ dg ++ " and EMAIL-" ++ dg) := by
  refine ⟨stable_token_det, ?_, ⟨"cd153a8429", rfl⟩⟩
  intro v1 v2 m1 m2 h1 h2 heq
  have p1 := stable_token_pre v1 "EMAIL" m1 h1
  have p2 := stable_token_pre v2 "UUID" m2 h2
  rw [heq] at p1
  simp only [strStartsWith] at p1 p2
  rw [List.isPrefixOf_iff_prefix] at p1 p2
  rcases p1 with ⟨r1, hr1⟩
  rcases p2 with ⟨r2, hr2⟩
  have h3 : 'E' :: ("MAIL-".data ++ r1) = 'U' :: ("UID-".data ++ r2) := by
    have e1 : ("EMAIL" ++ "-").data ++ r1 = 'E' :: ("MAIL-".data ++ r1) := rfl
    have e2 : ("UUID" ++ "-").data ++ r2 = 'U' :: ("UID-".data ++ r2) := rfl
    rw [← e1, ← e2, hr1, hr2]
  exact absurd (List.cons.inj h3).1 (by decide)

/-- C7 witness: cross-category tokens from fresh maps differ. -/
theorem claim_C7_wit :
    (stable_token "a" "EMAIL" []).1 ≠ (stable_token "b" "UUID" []).1 :=
  claim_C7.2.1 "a" "b" [] [] (by simp) (by simp)

/-- C8: the spec says re-redacting is idempotent for the URL-host category.
It is not: the second pass re-matches the host token inside the URL and
re-tokenizes it, so redacting the once-redacted "https://x.com" changes the
string again. -/
theorem claim_C8_cex :
    redactOnce (redactOnce "https://x.com") ≠ redactOnce "https://x.com" := by
  decide

/-- C8 (amended): re-redaction leaves already-redacted home-path and email
outputs unchanged, as witnessed on representative inputs of those
categories (the replacement "/Users/USER" re-matches to itself and an
EMAIL- token has no "@" to re-match), while the URL-host category is not
idempotent. -/
theorem claim_C8_amended :
    redactOnce (redactOnce "/Users/alice/work") =
      redactOnce "/Users/alice/work" ∧
    redactOnce (redactOnce "see bob@x.com ok") =
      redactOnce "see bob@x.com ok" := ⟨rfl, rfl⟩

/-- The context-state predicate of the claude/codex summary loop: any stored
snippet is non-empty and does not start with "<". -/
def ctxStateOk (st : Option String × Option String) : Prop :=
  (∀ t, st.1 = some t → t ≠ "" ∧ strStartsWith t "<" = false) ∧
  (∀ t, st.2 = some t → t ≠ "" ∧ strStartsWith t "<" = false)

theorem ctxEventStepLines_inv (st st2 : Option String × Option String)
    (event : Event) (hst : ctxStateOk st)
    (h : ctxEventStepLines st event = .ok st2) : ctxStateOk st2 := by
  unfold ctxEventStepLines at h
  split at h
  · simp only [pure] at h
    rcases Except.ok.inj h with rfl
    exact hst
  · rcases bind_ok_elim h with ⟨text, _, h⟩
    split at h
    case isTrue hcond =>
      simp only [pure] at h
      rcases Except.ok.inj h with rfl
      rcases (Bool.and_eq_true _ _).mp hcond with ⟨hne, hlt⟩
      have hne2 : text ≠ "" := bne_iff_ne.mp hne
      have hlt2 : strStartsWith text "<" = false := by
        cases hx : strStartsWith text "<"
        · rfl
        · rw [hx] at hlt; simp at hlt
      constructor
      · intro t ht
        rcases Option.some.inj ht with rfl
        exact ⟨hne2, hlt2⟩
      · intro t ht
        dsimp only at ht
        split at ht
        · rcases Option.some.inj ht with rfl
          exact ⟨hne2, hlt2⟩
        · exact hst.2 t ht
    case isFalse =>
      simp only [pure] at h
      rcases Except.ok.inj h with rfl
      exact hst

theorem ctxEventsFold_inv :
    ∀ (events : List Event) (st st2 : Option String × Option String),
      ctxStateOk st → events.foldlM ctxEventStepLines st = .ok st2 →
      ctxStateOk st2 := by
  intro events
  induction events with
  | nil =>
    intro st st2 hst h
    simp only [List.foldlM_nil, pure] at h
    rcases Except.ok.inj h with rfl
    exact hst
  | cons e es ih =>
    intro st st2 hst h
    rw [List.foldlM_cons] at h
    rcases bind_ok_elim h with ⟨stm, hstep, h⟩
    exact ih stm st2 (ctxEventStepLines_inv st stm e hst hstep) h

theorem ctxRecordsFold_inv (backend : String) :
    ∀ (records : List JSON) (st st2 : Option String × Option String),
      ctxStateOk st → records.foldlM (ctxRecordStepLines backend) st = .ok st2 →
      ctxStateOk st2 := by
  intro records
  induction records with
  | nil =>
    intro st st2 hst h
    simp only [List.foldlM_nil, pure] at h
    rcases Except.ok.inj h with rfl
    exact hst
  | cons r rs ih =>
    intro st st2 hst h
    rw [List.foldlM_cons] at h
    rcases bind_ok_elim h with ⟨stm, hstep, h⟩
    unfold ctxRecordStepLines at hstep
    rcases bind_ok_elim hstep with ⟨events, _, hstep⟩
    exact ih stm st2 (ctxEventsFold_inv events st stm hst hstep) h

/-- C10: summary enrichment is asymmetric: the claude/codex loop only ever
stores user text that is non-empty and does not start with "<" (so a
session whose only user text starts with "<" is excluded from discovery),
while the gemini loop applies no "<" filter and keeps such text. -/
theorem claim_C10 :
    (∀ backend records st,
      sessionContextLinesE backend records = .ok st → ctxStateOk st) ∧
    (get_session_context "gemini" (.doc (.obj [("messages",
      .arr [.obj [("type", .str "user"), ("content", .str "<tag>")]])])) =
      (some "<tag>", some "<tag>")) ∧
    (find_recent_sessions "claude" [⟨"/p/x.jsonl", "x.jsonl", 100, 5⟩]
      [("/p/x.jsonl", .lines [claudeUserRec "<cmd>"])] 20 none = []) := by
  refine ⟨?_, rfl, rfl⟩
  intro backend records st h
  exact ctxRecordsFold_inv backend records (none, none) st
    (by constructor <;> intro t ht <;> simp at ht) h

/-- C10 witness: the claude/codex invariant evaluated on a one-record file
whose stored snippet is "hello". -/
theorem claim_C10_wit : "hello" ≠ "" ∧ strStartsWith "hello" "<" = false :=
  (claim_C10.1 "claude" [claudeUserRec "hello"]
    (some "hello", some "hello") rfl).1 "hello" rfl
